import Mathlib

/-!
Verification of the genie-space analysis pipeline (agent_server) against its
specification: checklist parsing, deterministic checks, section evaluation,
LLM-response extraction, suggestion merge, and pre-publish normalization.

The Python configuration values (JSON-like trees of dicts, lists, strings,
numbers, booleans and None) are embedded as the inductive type `JVal`.
Dicts are insertion-ordered in Python, so objects are association lists.
JSON numbers are modelled as integers: no claim here exercises non-integral
numeric data.
-/

inductive JVal where
  | null
  | bool (b : Bool)
  | num (n : Int)
  | str (s : String)
  | arr (items : List JVal)
  | obj (fields : List (String × JVal))

namespace JVal

mutual

/-- Structural boolean equality (deriving fails for this nested inductive). -/
def beq : JVal → JVal → Bool
  | .null, .null => true
  | .bool a, .bool b => a == b
  | .num a, .num b => a == b
  | .str a, .str b => a == b
  | .arr xs, .arr ys => beqList xs ys
  | .obj xs, .obj ys => beqFields xs ys
  | _, _ => false

def beqList : List JVal → List JVal → Bool
  | [], [] => true
  | x :: xs, y :: ys => beq x y && beqList xs ys
  | _, _ => false

def beqFields : List (String × JVal) → List (String × JVal) → Bool
  | [], [] => true
  | (k, v) :: xs, (k2, v2) :: ys => k == k2 && beq v v2 && beqFields xs ys
  | _, _ => false

end

theorem beqList_iff (xs ys : List JVal)
    (h : ∀ x ∈ xs, ∀ b, (beq x b = true ↔ x = b)) :
    beqList xs ys = true ↔ xs = ys := by
  induction xs generalizing ys with
  | nil => cases ys <;> simp [beqList]
  | cons x xs ihx =>
    cases ys with
    | nil => simp [beqList]
    | cons y ys =>
      simp only [beqList, Bool.and_eq_true, List.cons.injEq]
      rw [h x (by simp) y, ihx ys (fun x hx b => h x (by simp [hx]) b)]

theorem beqFields_iff (xs ys : List (String × JVal))
    (h : ∀ p ∈ xs, ∀ b, (beq p.2 b = true ↔ p.2 = b)) :
    beqFields xs ys = true ↔ xs = ys := by
  induction xs generalizing ys with
  | nil => cases ys <;> simp [beqFields]
  | cons x xs ihx =>
    cases ys with
    | nil => simp [beqFields]
    | cons y ys =>
      obtain ⟨k, v⟩ := x
      obtain ⟨k2, v2⟩ := y
      simp only [beqFields, Bool.and_eq_true, List.cons.injEq, Prod.mk.injEq,
        beq_iff_eq]
      rw [h (k, v) (by simp) v2, ihx ys (fun p hp b => h p (by simp [hp]) b)]

theorem beq_eq_true_iff : ∀ (a b : JVal), beq a b = true ↔ a = b := by
  have main : ∀ (n : Nat) (a b : JVal), sizeOf a ≤ n → (beq a b = true ↔ a = b) := by
    intro n
    induction n with
    | zero =>
      intro a b ha
      exfalso
      cases a <;>
        simp only [JVal.null.sizeOf_spec, JVal.bool.sizeOf_spec, JVal.num.sizeOf_spec,
          JVal.str.sizeOf_spec, JVal.arr.sizeOf_spec, JVal.obj.sizeOf_spec] at ha <;>
        omega
    | succ n ih =>
      intro a b ha
      cases a with
      | null => cases b <;> simp [beq]
      | bool x => cases b <;> simp [beq]
      | num x => cases b <;> simp [beq]
      | str x => cases b <;> simp [beq]
      | arr xs =>
        have hxs : ∀ x ∈ xs, ∀ c, (beq x c = true ↔ x = c) := by
          intro x hx c
          have h1 := List.sizeOf_lt_of_mem hx
          simp only [JVal.arr.sizeOf_spec] at ha
          exact ih x c (by omega)
        cases b with
        | arr ys => simpa only [beq, JVal.arr.injEq] using beqList_iff xs ys hxs
        | null => simp [beq]
        | bool y => simp [beq]
        | num y => simp [beq]
        | str y => simp [beq]
        | obj y => simp [beq]
      | obj fs =>
        have hfs : ∀ p ∈ fs, ∀ c, (beq p.2 c = true ↔ p.2 = c) := by
          intro p hp c
          have h1 := List.sizeOf_lt_of_mem hp
          have h2 : sizeOf p.2 < sizeOf p := by
            obtain ⟨k, v⟩ := p
            simp only [Prod.mk.sizeOf_spec]
            omega
          simp only [JVal.obj.sizeOf_spec] at ha
          exact ih p.2 c (by omega)
        cases b with
        | obj gs => simpa only [beq, JVal.obj.injEq] using beqFields_iff fs gs hfs
        | null => simp [beq]
        | bool y => simp [beq]
        | num y => simp [beq]
        | str y => simp [beq]
        | arr y => simp [beq]
  intro a b
  exact main (sizeOf a) a b le_rfl

instance : BEq JVal := ⟨beq⟩

instance : DecidableEq JVal := fun a b =>
  decidable_of_iff (beq a b = true) (beq_eq_true_iff a b)

def isArr : JVal → Bool
  | .arr _ => true
  | _ => false

def isObj : JVal → Bool
  | .obj _ => true
  | _ => false

end JVal

/-- First-match association-list lookup: Python dicts have unique keys, so
this is exactly `d[k]` / `d.get(k)` membership. -/
def lookupField : List (String × JVal) → String → Option JVal
  | [], _ => none
  | (k, v) :: rest, key => if k = key then some v else lookupField rest key

/-- Python `d[k] = v`: replace the value of an existing key in place,
otherwise append the new key at the end (insertion order). -/
def setField : List (String × JVal) → String → JVal → List (String × JVal)
  | [], key, v => [(key, v)]
  | (k, w) :: rest, key, v =>
    if k = key then (k, v) :: rest else (k, w) :: setField rest key v

/-- Python `obj.get(k, dflt)`. Defined over any `JVal` for totality; CPython
raises AttributeError when the receiver is not a dict, a path no claim in
this development reaches. -/
def jget (v : JVal) (k : String) (dflt : JVal) : JVal :=
  match v with
  | .obj fs => (lookupField fs k).getD dflt
  | _ => dflt

/-- Python `obj.get(k)` (default None). -/
def jgetOpt (v : JVal) (k : String) : Option JVal :=
  match v with
  | .obj fs => lookupField fs k
  | _ => none

/-- Python truthiness of a JSON-like value. -/
def pyTruthy : JVal → Bool
  | .null => false
  | .bool b => b
  | .num n => n != 0
  | .str s => !s.data.isEmpty
  | .arr xs => !xs.isEmpty
  | .obj fs => !fs.isEmpty

/-- Python whitespace for `str.strip()` (ASCII: space, tab, LF, CR, FF, VT). -/
def isPySpace (c : Char) : Bool :=
  c = ' ' || c = '\t' || c = '\n' || c = '\r' || c = '\x0b' || c = '\x0c'

def stripChars (cs : List Char) : List Char :=
  ((cs.dropWhile isPySpace).reverse.dropWhile isPySpace).reverse

/-- Python `s.strip()`. -/
def pyStrip (s : String) : String := String.mk (stripChars s.data)

/-- Python `len(x) if isinstance(x, list) else 0`. -/
def listLen : JVal → Nat
  | .arr xs => xs.length
  | _ => 0

/-- Python `len` over list/str/dict (TypeError otherwise; modelled as 0,
a path no claim reaches). -/
def pyLen : JVal → Nat
  | .arr xs => xs.length
  | .str s => s.data.length
  | .obj fs => fs.length
  | _ => 0

/-- The string elements produced by `(d for d in v if isinstance(d, str))`:
for a list its string elements, for a string its characters (each a
one-character string in Python), for a dict its keys. Non-iterables give
[] (CPython raises TypeError there; no claim reaches it). -/
def iterStrs : JVal → List String
  | .arr xs => xs.filterMap (fun x => match x with | .str s => some s | _ => none)
  | .str s => s.data.map String.singleton
  | .obj fs => fs.map (·.1)
  | _ => []

/-- Python `any(d.strip() for d in v if isinstance(d, str))`. -/
def anyNonBlank (v : JVal) : Bool :=
  (iterStrs v).any (fun s => !(pyStrip s).data.isEmpty)

/-!
## checks.py — the DeterministicCheckEngine

`ChecklistItem` is models.py's pydantic model: id, description, passed,
details. The `check_type="programmatic"` keyword that checks.py passes is
not a field of the model and is discarded by pydantic, so it does not
appear here.

Ratio thresholds (`>= total * 0.5`, `>= max(1, total * 0.2)`, ...) are
Python float comparisons against integer counts; they are embedded as the
exact rational comparisons (`2 * k ≥ total`, `k ≥ 1 ∧ 5 * k ≥ total`, ...),
which agree with IEEE double arithmetic for all collection sizes that
arise here.
-/

structure ChecklistItem where
  id : String
  description : String
  passed : Bool
  details : Option String
deriving DecidableEq, Repr

def check_sample_questions_exist (section_data : Option JVal) : ChecklistItem :=
  match section_data with
  | none =>
    ⟨"sample_questions_exist", "At least 1 sample question exists",
      false, some "Section not configured"⟩
  | some d =>
    let count := listLen d
    ⟨"sample_questions_exist", "At least 1 sample question exists",
      decide (count ≥ 1), some ("Found " ++ toString count ++ " sample question(s)")⟩

def check_tables_exist (section_data : Option JVal) : ChecklistItem :=
  match section_data with
  | none =>
    ⟨"tables_exist", "At least 1 table is configured",
      false, some "Section not configured"⟩
  | some d =>
    let count := listLen d
    ⟨"tables_exist", "At least 1 table is configured",
      decide (count ≥ 1), some ("Found " ++ toString count ++ " table(s)")⟩

def check_tables_count_limit (section_data : Option JVal) : ChecklistItem :=
  match section_data with
  | none =>
    ⟨"tables_count_limit", "Number of tables is 25 or fewer",
      false, some "Section not configured"⟩
  | some d =>
    let count := listLen d
    ⟨"tables_count_limit", "Number of tables is 25 or fewer",
      decide (count ≤ 25),
      some ("Found " ++ toString count ++ " table(s)"
        ++ (if count > 25 then " (exceeds limit)" else ""))⟩

/-- `table.get("column_configs", [])`, iterated as a list. -/
def colConfigs (table : JVal) : List JVal :=
  match jget table "column_configs" (.arr []) with
  | .arr xs => xs
  | _ => []

def check_column_descriptions_exist (section_data : Option JVal) : ChecklistItem :=
  match section_data with
  | some (.arr tables) =>
    let cols := tables.flatMap colConfigs
    let total := cols.length
    let withDesc := (cols.filter (fun col =>
      let desc := jget col "description" (.arr [])
      pyTruthy desc && anyNonBlank desc)).length
    if total = 0 then
      ⟨"column_descriptions_exist", "Columns have descriptions defined",
        false, some "No column configs found"⟩
    else
      ⟨"column_descriptions_exist", "Columns have descriptions defined",
        decide (2 * withDesc ≥ total),
        some (toString withDesc ++ "/" ++ toString total ++ " columns have descriptions")⟩
  | _ =>
    ⟨"column_descriptions_exist", "Columns have descriptions defined",
      false, some "No tables configured"⟩

def check_column_synonyms_exist (section_data : Option JVal) : ChecklistItem :=
  match section_data with
  | some (.arr tables) =>
    let cols := tables.flatMap colConfigs
    let total := cols.length
    let withSyn := (cols.filter (fun col =>
      let synonyms := jget col "synonyms" (.arr [])
      pyTruthy synonyms && pyLen synonyms > 0)).length
    if total = 0 then
      ⟨"column_synonyms_exist", "Key columns have synonyms defined",
        false, some "No column configs found"⟩
    else
      ⟨"column_synonyms_exist", "Key columns have synonyms defined",
        decide (withSyn ≥ 1 ∧ 5 * withSyn ≥ total),
        some (toString withSyn ++ "/" ++ toString total ++ " columns have synonyms")⟩
  | _ =>
    ⟨"column_synonyms_exist", "Key columns have synonyms defined",
      false, some "No tables configured"⟩

def check_example_values_enabled (section_data : Option JVal) : ChecklistItem :=
  match section_data with
  | some (.arr tables) =>
    let cols := tables.flatMap colConfigs
    let total := cols.length
    let withEx := (cols.filter (fun col =>
      pyTruthy (jget col "get_example_values" (.bool false)))).length
    if total = 0 then
      ⟨"example_values_enabled", "Filterable columns have get_example_values enabled",
        false, some "No column configs found"⟩
    else
      ⟨"example_values_enabled", "Filterable columns have get_example_values enabled",
        decide (withEx ≥ 1 ∧ 5 * withEx ≥ total),
        some (toString withEx ++ "/" ++ toString total
          ++ " columns have example values enabled")⟩
  | _ =>
    ⟨"example_values_enabled", "Filterable columns have get_example_values enabled",
      false, some "No tables configured"⟩

def check_value_dictionary_enabled (section_data : Option JVal) : ChecklistItem :=
  match section_data with
  | some (.arr tables) =>
    let cols := tables.flatMap colConfigs
    let total := cols.length
    let withVd := (cols.filter (fun col =>
      pyTruthy (jget col "build_value_dictionary" (.bool false)))).length
    if total = 0 then
      ⟨"value_dictionary_enabled",
        "Columns with discrete values have build_value_dictionary enabled",
        false, some "No column configs found"⟩
    else
      ⟨"value_dictionary_enabled",
        "Columns with discrete values have build_value_dictionary enabled",
        decide (withVd ≥ 1),
        some (toString withVd ++ "/" ++ toString total
          ++ " columns have value dictionary enabled")⟩
  | _ =>
    ⟨"value_dictionary_enabled",
      "Columns with discrete values have build_value_dictionary enabled",
      false, some "No tables configured"⟩

def check_columns_excluded (section_data : Option JVal) : ChecklistItem :=
  match section_data with
  | some (.arr tables) =>
    let cols := tables.flatMap colConfigs
    let total := cols.length
    let excluded := (cols.filter (fun col =>
      pyTruthy (jget col "exclude" (.bool false)))).length
    if total = 0 then
      ⟨"columns_excluded", "Technical/internal columns are excluded",
        false, some "No column configs found"⟩
    else
      ⟨"columns_excluded", "Technical/internal columns are excluded",
        decide (excluded ≥ 1 ∨ total ≤ 5),
        some (toString excluded ++ "/" ++ toString total ++ " columns excluded")⟩
  | _ =>
    ⟨"columns_excluded", "Technical/internal columns are excluded",
      false, some "No tables configured"⟩

def check_metric_views_have_descriptions (section_data : Option JVal) : ChecklistItem :=
  match section_data with
  | some (.arr mvs) =>
    if mvs.length = 0 then
      ⟨"metric_views_descriptions", "Metric views have descriptions (if any exist)",
        false, some "No metric views configured"⟩
    else
      let total := mvs.length
      let withDesc := (mvs.filter (fun mv =>
        pyTruthy (jget mv "description" .null)
          && anyNonBlank (jget mv "description" (.arr [])))).length
      ⟨"metric_views_descriptions", "Metric views have descriptions (if any exist)",
        decide (2 * withDesc ≥ total),
        some (toString withDesc ++ "/" ++ toString total
          ++ " metric views have descriptions")⟩
  | _ =>
    ⟨"metric_views_descriptions", "Metric views have descriptions (if any exist)",
      false, some "No metric views configured"⟩

def check_text_instructions_exist (section_data : Option JVal) : ChecklistItem :=
  match section_data with
  | none =>
    ⟨"text_instructions_exist", "At least 1 text instruction exists",
      false, some "Section not configured"⟩
  | some d =>
    let count := listLen d
    ⟨"text_instructions_exist", "At least 1 text instruction exists",
      decide (count ≥ 1), some ("Found " ++ toString count ++ " text instruction(s)")⟩

def check_example_sqls_exist (section_data : Option JVal) : ChecklistItem :=
  match section_data with
  | none =>
    ⟨"example_sqls_exist", "At least 1 example question-SQL pair exists",
      false, some "Section not configured"⟩
  | some d =>
    let count := listLen d
    ⟨"example_sqls_exist", "At least 1 example question-SQL pair exists",
      decide (count ≥ 1),
      some ("Found " ++ toString count ++ " example question-SQL pair(s)")⟩

/-- `example.get("parameters", [])`, iterated as a list. -/
def exampleParams (ex : JVal) : List JVal :=
  match jget ex "parameters" (.arr []) with
  | .arr xs => xs
  | _ => []

def check_parameters_have_descriptions (section_data : Option JVal) : ChecklistItem :=
  match section_data with
  | some (.arr examples) =>
    let params := examples.flatMap exampleParams
    let total := params.length
    let withDesc := (params.filter (fun param =>
      let desc := jget param "description" (.arr [])
      pyTruthy desc && anyNonBlank desc)).length
    if total = 0 then
      ⟨"parameters_descriptions",
        "Parameters have descriptions defined (if parameters exist)",
        false, some "No parameters defined"⟩
    else
      ⟨"parameters_descriptions",
        "Parameters have descriptions defined (if parameters exist)",
        decide (2 * withDesc ≥ total),
        some (toString withDesc ++ "/" ++ toString total
          ++ " parameters have descriptions")⟩
  | _ =>
    ⟨"parameters_descriptions",
      "Parameters have descriptions defined (if parameters exist)",
      false, some "Section not configured"⟩

def check_usage_guidance_provided (section_data : Option JVal) : ChecklistItem :=
  match section_data with
  | some (.arr examples) =>
    let total := examples.length
    let withG := (examples.filter (fun ex =>
      pyTruthy (jget ex "usage_guidance" .null)
        && anyNonBlank (jget ex "usage_guidance" (.arr [])))).length
    if total = 0 then
      ⟨"usage_guidance_provided", "Usage guidance is provided for complex examples",
        false, some "No examples defined"⟩
    else
      ⟨"usage_guidance_provided", "Usage guidance is provided for complex examples",
        decide (withG ≥ 1 ∧ 10 * withG ≥ 3 * total),
        some (toString withG ++ "/" ++ toString total ++ " examples have usage guidance")⟩
  | _ =>
    ⟨"usage_guidance_provided", "Usage guidance is provided for complex examples",
      false, some "Section not configured"⟩

def check_sql_functions_registered (section_data : Option JVal) : ChecklistItem :=
  match section_data with
  | some (.arr fns) =>
    if fns.length = 0 then
      ⟨"sql_functions_registered",
        "Registered functions exist in Unity Catalog (if any defined)",
        false, some "No SQL functions configured"⟩
    else
      let total := fns.length
      let withIds := (fns.filter (fun fn => pyTruthy (jgetOpt fn "identifier"
        |>.getD .null))).length
      ⟨"sql_functions_registered",
        "Registered functions exist in Unity Catalog (if any defined)",
        decide (withIds = total),
        some (toString withIds ++ "/" ++ toString total
          ++ " functions have Unity Catalog identifiers")⟩
  | _ =>
    ⟨"sql_functions_registered",
      "Registered functions exist in Unity Catalog (if any defined)",
      false, some "No SQL functions configured"⟩

def check_join_specs_defined (section_data tables_data : Option JVal) : ChecklistItem :=
  let join_count := match section_data with
    | some v => if pyTruthy v && v.isArr then pyLen v else 0
    | none => 0
  let table_count := match tables_data with
    | some v => if pyTruthy v && v.isArr then pyLen v else 0
    | none => 0
  if join_count = 0 then
    ⟨"join_specs_defined",
      "Join specs are defined for multi-table relationships (if >1 table)",
      false, some ("No join specs configured (" ++ toString table_count ++ " table(s))")⟩
  else
    ⟨"join_specs_defined",
      "Join specs are defined for multi-table relationships (if >1 table)",
      true, some ("Found " ++ toString join_count ++ " join spec(s) for "
        ++ toString table_count ++ " tables")⟩

def check_filters_exist (section_data : Option JVal) : ChecklistItem :=
  match section_data with
  | some (.arr xs) =>
    if xs.length = 0 then
      ⟨"filters_exist", "Common time period filters exist",
        false, some "No filters configured"⟩
    else
      ⟨"filters_exist", "Common time period filters exist",
        decide (xs.length ≥ 1), some ("Found " ++ toString xs.length ++ " filter(s)")⟩
  | _ =>
    ⟨"filters_exist", "Common time period filters exist",
      false, some "No filters configured"⟩

def check_expressions_exist (section_data : Option JVal) : ChecklistItem :=
  match section_data with
  | some (.arr xs) =>
    if xs.length = 0 then
      ⟨"expressions_exist", "Reusable expressions are defined for common categorizations",
        false, some "No expressions configured"⟩
    else
      ⟨"expressions_exist", "Reusable expressions are defined for common categorizations",
        decide (xs.length ≥ 1), some ("Found " ++ toString xs.length ++ " expression(s)")⟩
  | _ =>
    ⟨"expressions_exist", "Reusable expressions are defined for common categorizations",
      false, some "No expressions configured"⟩

def check_measures_exist (section_data : Option JVal) : ChecklistItem :=
  match section_data with
  | some (.arr xs) =>
    if xs.length = 0 then
      ⟨"measures_exist", "Frequently used metrics are defined",
        false, some "No measures configured"⟩
    else
      ⟨"measures_exist", "Frequently used metrics are defined",
        decide (xs.length ≥ 1), some ("Found " ++ toString xs.length ++ " measure(s)")⟩
  | _ =>
    ⟨"measures_exist", "Frequently used metrics are defined",
      false, some "No measures configured"⟩

def check_benchmark_questions_exist (section_data : Option JVal) : ChecklistItem :=
  match section_data with
  | none =>
    ⟨"benchmark_questions_exist", "At least 1 benchmark question exists",
      false, some "Section not configured"⟩
  | some d =>
    let count := listLen d
    ⟨"benchmark_questions_exist", "At least 1 benchmark question exists",
      decide (count ≥ 1), some ("Found " ++ toString count ++ " benchmark question(s)")⟩

/-- checks.py `get_programmatic_checks_for_section`: dispatch from section
name to the programmatic check results. -/
def get_programmatic_checks_for_section (section_name : String)
    (section_data : Option JVal) (full_space : Option JVal) : List ChecklistItem :=
  if section_name = "config.sample_questions" then
    [check_sample_questions_exist section_data]
  else if section_name = "data_sources.tables" then
    [check_tables_exist section_data,
     check_tables_count_limit section_data,
     check_column_descriptions_exist section_data,
     check_column_synonyms_exist section_data,
     check_example_values_enabled section_data,
     check_value_dictionary_enabled section_data,
     check_columns_excluded section_data]
  else if section_name = "data_sources.metric_views" then
    [check_metric_views_have_descriptions section_data]
  else if section_name = "instructions.text_instructions" then
    [check_text_instructions_exist section_data]
  else if section_name = "instructions.example_question_sqls" then
    [check_example_sqls_exist section_data,
     check_parameters_have_descriptions section_data,
     check_usage_guidance_provided section_data]
  else if section_name = "instructions.sql_functions" then
    [check_sql_functions_registered section_data]
  else if section_name = "instructions.join_specs" then
    let tables_data := match full_space with
      | some fs => if pyTruthy fs then jgetOpt (jget fs "data_sources" (.obj [])) "tables" else none
      | none => none
    [check_join_specs_defined section_data tables_data]
  else if section_name = "instructions.sql_snippets.filters" then
    [check_filters_exist section_data]
  else if section_name = "instructions.sql_snippets.expressions" then
    [check_expressions_exist section_data]
  else if section_name = "instructions.sql_snippets.measures" then
    [check_measures_exist section_data]
  else if section_name = "benchmarks.questions" then
    [check_benchmark_questions_exist section_data]
  else
    []

/-!
## agent.py — GenieSpaceAnalyzer section evaluation

`Finding` and `SectionAnalysis` are models.py's pydantic models. The
registry lookup `get_checklist_items_for_section` reads its items from
docs/checklist-by-schema.md, a data file that ships outside the source
tree, so the registry is threaded through as a parameter
`registry : String → List RegistryItem` standing for that lookup.

The LLM call and the subsequent JSON parse are the external collaborator;
`LLMResult` is the shape the code reads out of the parsed response
(`result.get("evaluations", [])`, `result.get("findings", [])`,
`result.get("summary", "")`), and `analyze_section` takes the response it
would receive as the `oracle` argument. An evaluation entry keeps
per-entry defaults as options: `e.get("passed", False)` and
`e.get("details")`.
-/

structure Finding where
  category : String
  severity : String
  description : String
  recommendation : String
  reference : String
deriving DecidableEq, Repr

structure SectionAnalysis where
  section_name : String
  checklist : List ChecklistItem
  findings : List Finding
  score : Nat
  summary : String
deriving DecidableEq, Repr

/-- An item of the parsed checklist registry: `{"id": ..., "description": ...}`. -/
structure RegistryItem where
  id : String
  description : String
deriving DecidableEq, Repr

structure LLMEval where
  id : String
  passed : Option Bool
  details : Option String
deriving DecidableEq, Repr

structure LLMResult where
  evaluations : List LLMEval
  findings : List Finding
  summary : String
deriving DecidableEq, Repr

/-- Round `num / den` to the nearest integer, ties to even: CPython's
`round` on the exact rational value. (CPython rounds the IEEE double
`passed / total * 10`; the two agree at every count that arises here.) -/
def roundHalfEven (num den : Nat) : Nat :=
  let q := num / den
  let r := num % den
  if 2 * r < den then q
  else if den < 2 * r then q + 1
  else if q % 2 = 0 then q else q + 1

/-- `round(passed_count / total_count * 10) if total_count > 0 else 0`. -/
def checklistScore (checklist : List ChecklistItem) : Nat :=
  let passed_count := (checklist.filter (·.passed)).length
  let total_count := checklist.length
  if total_count > 0 then roundHalfEven (passed_count * 10) total_count else 0

/-- agent.py's `section_descriptions` table inside
`_create_missing_section_analysis`. -/
def section_descriptions : List (String × String) :=
  [("data_sources.tables", "Tables are required for the space to query data"),
   ("data_sources.metric_views",
    "Metric views provide pre-computed aggregations for better accuracy"),
   ("instructions.text_instructions",
    "Text instructions help Genie understand business context and terminology"),
   ("instructions.example_question_sqls",
    "Example SQL queries teach Genie complex query patterns"),
   ("instructions.sql_functions",
    "SQL functions register custom UDFs for specialized calculations"),
   ("instructions.join_specs", "Join specifications help Genie correctly join tables"),
   ("instructions.sql_snippets.filters",
    "Filter snippets define common filtering patterns (e.g., 'last quarter')"),
   ("instructions.sql_snippets.expressions",
    "Expression snippets define common categorizations or derivations"),
   ("instructions.sql_snippets.measures",
    "Measure snippets define standard business metrics"),
   ("benchmarks.questions",
    "Benchmark questions help evaluate and improve Genie accuracy")]

def lookupStr : List (String × String) → String → Option String
  | [], _ => none
  | (k, v) :: rest, key => if k = key then some v else lookupStr rest key

/-- agent.py `GenieSpaceAnalyzer._create_missing_section_analysis`. The
`full_space` argument exists in the source signature and is unused there. -/
def create_missing_section_analysis (registry : String → List RegistryItem)
    (section_name : String) (full_space : Option JVal) : SectionAnalysis :=
  let description := (lookupStr section_descriptions section_name).getD
    ("The " ++ section_name ++ " section is not configured")
  let checklist_items := registry section_name
  let checklist : List ChecklistItem := checklist_items.map (fun item =>
    ⟨item.id, item.description, false, some "Section not configured"⟩)
  let score := checklistScore checklist
  let finding : Finding :=
    ⟨"suggestion", "medium",
     "Section '" ++ section_name ++ "' is not configured",
     "Consider adding " ++ section_name ++ ". " ++ description ++ ".",
     "See checklist documentation for " ++ section_name⟩
  ⟨section_name, checklist, [finding], score,
   "This section is not configured. " ++ description ++ "."⟩

/-- The last evaluation entry carrying a given id:
`{e["id"]: e for e in evaluations}` keeps the last entry per key, and
`.get(item["id"], {})` reads it back. -/
def lastEval (evals : List LLMEval) (id : String) : Option LLMEval :=
  (evals.filter (fun e => e.id = id)).getLast?

/-- agent.py `GenieSpaceAnalyzer.analyze_section`. The trace-tagging side
effect (swallowed on failure) has no bearing on the returned value and is
not modelled. When `section_data` is none the LLM is never called, which
is why the result does not depend on `oracle` in that branch. -/
def analyze_section (registry : String → List RegistryItem) (oracle : LLMResult)
    (section_name : String) (section_data : Option JVal)
    (full_space : Option JVal) : SectionAnalysis :=
  match section_data with
  | none => create_missing_section_analysis registry section_name full_space
  | some _ =>
    let checklist_items := registry section_name
    if checklist_items.isEmpty then
      let checklist : List ChecklistItem := []
      ⟨section_name, checklist, [], checklistScore checklist,
       "No checklist items defined for this section."⟩
    else
      let checklist : List ChecklistItem := checklist_items.map (fun item =>
        match lastEval oracle.evaluations item.id with
        | some e => ⟨item.id, item.description, (e.passed).getD false, e.details⟩
        | none => ⟨item.id, item.description, false, none⟩)
      ⟨section_name, checklist, oracle.findings, checklistScore checklist,
       oracle.summary⟩

/-!
## checklist_parser.py — ChecklistRegistry parsing

All string processing is done over `List Char` with structural recursion,
mirroring CPython's `str` semantics (ASCII inputs throughout).
-/

theorem dropWhile_length_le (p : Char → Bool) (l : List Char) :
    (l.dropWhile p).length ≤ l.length := by
  induction l with
  | nil => simp [List.dropWhile]
  | cons c rest ih =>
    simp only [List.dropWhile]
    split
    · simp only [List.length_cons]; omega
    · simp

/-- checklist_parser.py `RECOGNIZED_SECTIONS`. In the source this is a
Python `set` literal (unordered; only membership is ever used); the list
here follows the order of the source text. -/
def RECOGNIZED_SECTIONS : List String :=
  ["data_sources.tables",
   "data_sources.metric_views",
   "instructions.text_instructions",
   "instructions.example_question_sqls",
   "instructions.sql_functions",
   "instructions.join_specs",
   "instructions.sql_snippets.filters",
   "instructions.sql_snippets.expressions",
   "instructions.sql_snippets.measures",
   "benchmarks.questions"]

/-- Modelled from the spec: the ordered `SECTIONS` sequence that agent.py
imports from checklist_parser (`from agent_server.checklist_parser import
... SECTIONS`) and iterates in `predict`. No definition of `SECTIONS`
exists anywhere in the source tree (the import would fail), so this list
is taken from the spec's enumeration: "config.sample_questions,
data_sources.tables, data_sources.metric_views,
instructions.text_instructions, instructions.example_question_sqls,
instructions.sql_functions, instructions.join_specs,
instructions.sql_snippets.{filters,expressions,measures},
benchmarks.questions", in that order. -/
def SECTIONS_spec : List String :=
  ["config.sample_questions",
   "data_sources.tables",
   "data_sources.metric_views",
   "instructions.text_instructions",
   "instructions.example_question_sqls",
   "instructions.sql_functions",
   "instructions.join_specs",
   "instructions.sql_snippets.filters",
   "instructions.sql_snippets.expressions",
   "instructions.sql_snippets.measures",
   "benchmarks.questions"]

/-- Replace each maximal run of `isRun`-characters by the single character
`rep`: Python `re.sub` with a one-character-class `+` pattern. The flag
tracks whether the previous character was inside a run. -/
def collapseRuns (isRun : Char → Bool) (rep : Char) : List Char → Bool → List Char
  | [], _ => []
  | c :: rest, inRun =>
    if isRun c then
      if inRun then collapseRuns isRun rep rest true
      else rep :: collapseRuns isRun rep rest true
    else c :: collapseRuns isRun rep rest false

/-- checklist_parser.py `slugify`. -/
def slugify (text : String) : String :=
  let s1 := text.data.map Char.toLower
  let s2 := s1.filter (fun c => !(c = '`' || c = '\'' || c = '"'))
  let s3 := s2.map (fun c =>
    if ('a' ≤ c && c ≤ 'z') || ('0' ≤ c && c ≤ '9') || isPySpace c || c = '-'
    then c else ' ')
  let s4 := stripChars s3
  let s5 := collapseRuns isPySpace '-' s4 false
  let s6 := collapseRuns (fun c => c = '-') '-' s5 false
  String.mk s6

/-- Python `content.split("\n")`. -/
def splitOnChar (sep : Char) : List Char → List (List Char)
  | [] => [[]]
  | c :: rest =>
    match splitOnChar sep rest with
    | [] => [[c]]
    | g :: gs => if c = sep then [] :: g :: gs else (c :: g) :: gs

/-- Python `re.search(r"` followed by `([^`]+)` and a closing backtick
`")` : the first non-empty backtick-delimited run, if any. -/
def searchBacktick : List Char → Option (List Char)
  | [] => none
  | c :: rest =>
    if c = '`' then
      let run := rest.takeWhile (fun d => !(d = '`'))
      if run.isEmpty then searchBacktick rest
      else
        match rest.drop run.length with
        | '`' :: _ => some run
        | _ => searchBacktick rest
    else searchBacktick rest

/-- Python `re.sub` with the bold-tag pattern (two asterisks, a bracketed
P or L, two asterisks, then optional whitespace) replaced by nothing. The
fuel argument (always the input length) only makes the recursion
structural; every step consumes at least one character, so the fuel never
runs out. -/
def removeTagsFuel : Nat → List Char → List Char
  | 0, cs => cs
  | fuel + 1, cs =>
    match cs with
    | '*' :: '*' :: '[' :: p :: ']' :: '*' :: '*' :: rest =>
      if p = 'P' || p = 'L' then removeTagsFuel fuel (rest.dropWhile isPySpace)
      else '*' :: removeTagsFuel fuel ('*' :: '[' :: p :: ']' :: '*' :: '*' :: rest)
    | c :: rest => c :: removeTagsFuel fuel rest
    | [] => []

def removeTags (cs : List Char) : List Char := removeTagsFuel cs.length cs

/-- An item of the registry, appended at its section's entry. -/
def appendItem : List (String × List RegistryItem) → String → RegistryItem →
    List (String × List RegistryItem)
  | [], _, _ => []
  | (k, items) :: rest, key, it =>
    if k = key then (k, items ++ [it]) :: rest
    else (k, items) :: appendItem rest key it

def lookupItems : List (String × List RegistryItem) → String → Option (List RegistryItem)
  | [], _ => none
  | (k, items) :: rest, key => if k = key then some items else lookupItems rest key

/-- The per-line state machine of `parse_checklist_markdown`. -/
def parseChecklistLines : List (List Char) → String → String → String →
    List (String × List RegistryItem) → List (String × List RegistryItem)
  | [], _, _, _, acc => acc
  | line :: rest, h2, h3, h4, acc =>
    let stripped := stripChars line
    if "## ".data.isPrefixOf stripped then
      let h2' := ((searchBacktick stripped).map String.mk).getD ""
      parseChecklistLines rest h2' "" "" acc
    else if "### ".data.isPrefixOf stripped then
      let h3' := ((searchBacktick stripped).map String.mk).getD ""
      parseChecklistLines rest h2 h3' "" acc
    else if "#### ".data.isPrefixOf stripped then
      let h4' := ((searchBacktick stripped).map String.mk).getD ""
      parseChecklistLines rest h2 h3 h4' acc
    else if "- [ ]".data.isPrefixOf stripped then
      let item_text := String.mk (stripChars (removeTags (stripChars (stripped.drop 5))))
      if item_text = "" then parseChecklistLines rest h2 h3 h4 acc
      else
        let section_path :=
          if h4 ≠ "" then h2 ++ "." ++ h3 ++ "." ++ h4
          else if h3 ≠ "" then h2 ++ "." ++ h3
          else ""
        if section_path ≠ "" && RECOGNIZED_SECTIONS.contains section_path then
          parseChecklistLines rest h2 h3 h4
            (appendItem acc section_path ⟨slugify item_text, item_text⟩)
        else parseChecklistLines rest h2 h3 h4 acc
    else
      parseChecklistLines rest h2 h3 h4 acc

/-- checklist_parser.py `parse_checklist_markdown`, over the document text.
The result dict is initialized with an empty item list for every
recognized section (`{section: [] for section in RECOGNIZED_SECTIONS}`);
since the Python source iterates a set there, the initialization order
here follows `RECOGNIZED_SECTIONS` as listed, and results are read
through `lookupItems`. -/
def parse_checklist_markdown (content : String) : List (String × List RegistryItem) :=
  parseChecklistLines (splitOnChar '\n' content.data) "" "" ""
    (RECOGNIZED_SECTIONS.map (fun s => (s, [])))

/-!
## llm_utils.py — ResponseExtractor

`json.loads` is Python's standard-library JSON parser, external to this
repository, so the extractor is parameterized by
`loads : String → Except String JVal`; everything else (fence stripping,
balanced-brace extraction, the repair pass) is translated from the source.
Leading-underscore source names lose the underscore here
(`_repair_json` → `repair_json`).
-/

theorem drop_cons_length_lt {cs rest2 : List Char} {d : Char} {n : Nat}
    (h : cs.drop n = d :: rest2) : rest2.length < cs.length := by
  have h1 : (cs.drop n).length ≤ cs.length := by
    simp only [List.length_drop]
    omega
  rw [h] at h1
  simp only [List.length_cons] at h1
  omega

theorem dropWhile_cons_length_lt {p : Char → Bool} {cs rest2 : List Char} {d : Char}
    (h : cs.dropWhile p = d :: rest2) : rest2.length < cs.length := by
  have h1 := dropWhile_length_le p cs
  rw [h] at h1
  simp only [List.length_cons] at h1
  omega

/-- Remove trailing commas: a comma, optional whitespace, then a closing
brace or bracket becomes just the closer. -/
def repairSub1 : List Char → List Char
  | [] => []
  | c :: rest =>
    if c = ',' then
      match h : rest.dropWhile isPySpace with
      | d :: rest2 =>
        if d = '}' || d = ']' then d :: repairSub1 rest2 else c :: repairSub1 rest
      | [] => c :: repairSub1 rest
    else c :: repairSub1 rest
termination_by cs => cs.length
decreasing_by
  · have := dropWhile_cons_length_lt h
    simp only [List.length_cons]
    omega
  all_goals simp only [List.length_cons]; omega

/-- Insert a comma between a closing quote and an opening brace or bracket
separated only by whitespace. -/
def repairSub2 : List Char → List Char
  | [] => []
  | c :: rest =>
    if c = '"' then
      match h : rest.dropWhile isPySpace with
      | d :: rest2 =>
        if d = '{' || d = '[' then c :: ',' :: '\n' :: d :: repairSub2 rest2
        else c :: repairSub2 rest
      | [] => c :: repairSub2 rest
    else c :: repairSub2 rest
termination_by cs => cs.length
decreasing_by
  · have := dropWhile_cons_length_lt h
    simp only [List.length_cons]
    omega
  all_goals simp only [List.length_cons]; omega

/-- Insert a comma between a closer and an opener separated only by
whitespace. -/
def repairSub3 : List Char → List Char
  | [] => []
  | c :: rest =>
    if c = '}' || c = ']' then
      match h : rest.dropWhile isPySpace with
      | d :: rest2 =>
        if d = '{' || d = '[' then c :: ',' :: '\n' :: d :: repairSub3 rest2
        else c :: repairSub3 rest
      | [] => c :: repairSub3 rest
    else c :: repairSub3 rest
termination_by cs => cs.length
decreasing_by
  · have := dropWhile_cons_length_lt h
    simp only [List.length_cons]
    omega
  all_goals simp only [List.length_cons]; omega

/-- Insert a comma between two quotes separated by whitespace containing a
newline. -/
def repairSub4 : List Char → List Char
  | [] => []
  | c :: rest =>
    if c = '"' && (rest.takeWhile isPySpace).contains '\n' then
      match h : rest.dropWhile isPySpace with
      | d :: rest2 =>
        if d = '"' then c :: ',' :: '\n' :: d :: repairSub4 rest2
        else c :: repairSub4 rest
      | [] => c :: repairSub4 rest
    else c :: repairSub4 rest
termination_by cs => cs.length
decreasing_by
  · have := dropWhile_cons_length_lt h
    simp only [List.length_cons]
    omega
  all_goals simp only [List.length_cons]; omega

/-- Insert a comma between two quotes separated by at least one whitespace
character (newline cases were already rewritten by the previous pass). -/
def repairSub5 : List Char → List Char
  | [] => []
  | c :: rest =>
    if c = '"' && !(rest.takeWhile isPySpace).isEmpty then
      match h : rest.dropWhile isPySpace with
      | d :: rest2 =>
        if d = '"' then c :: ',' :: ' ' :: d :: repairSub5 rest2
        else c :: repairSub5 rest
      | [] => c :: repairSub5 rest
    else c :: repairSub5 rest
termination_by cs => cs.length
decreasing_by
  · have := dropWhile_cons_length_lt h
    simp only [List.length_cons]
    omega
  all_goals simp only [List.length_cons]; omega

/-- Insert a comma between a closer and a quote separated by whitespace
containing a newline. -/
def repairSub6 : List Char → List Char
  | [] => []
  | c :: rest =>
    if (c = '}' || c = ']') && (rest.takeWhile isPySpace).contains '\n' then
      match h : rest.dropWhile isPySpace with
      | d :: rest2 =>
        if d = '"' then c :: ',' :: '\n' :: d :: repairSub6 rest2
        else c :: repairSub6 rest
      | [] => c :: repairSub6 rest
    else c :: repairSub6 rest
termination_by cs => cs.length
decreasing_by
  · have := dropWhile_cons_length_lt h
    simp only [List.length_cons]
    omega
  all_goals simp only [List.length_cons]; omega

/-- Insert a comma between a closer and a quote separated by at least one
whitespace character. -/
def repairSub7 : List Char → List Char
  | [] => []
  | c :: rest =>
    if (c = '}' || c = ']') && !(rest.takeWhile isPySpace).isEmpty then
      match h : rest.dropWhile isPySpace with
      | d :: rest2 =>
        if d = '"' then c :: ',' :: ' ' :: d :: repairSub7 rest2
        else c :: repairSub7 rest
      | [] => c :: repairSub7 rest
    else c :: repairSub7 rest
termination_by cs => cs.length
decreasing_by
  · have := dropWhile_cons_length_lt h
    simp only [List.length_cons]
    omega
  all_goals simp only [List.length_cons]; omega

/-- Insert a comma between a literal (true, false, null or a digit run)
and a quote separated by whitespace containing a newline. -/
def repairSub8 : List Char → List Char
  | [] => []
  | c :: rest =>
    let tok : List Char :=
      if "true".data.isPrefixOf (c :: rest) then "true".data
      else if "false".data.isPrefixOf (c :: rest) then "false".data
      else if "null".data.isPrefixOf (c :: rest) then "null".data
      else if c.isDigit then (c :: rest).takeWhile Char.isDigit
      else []
    if tok.isEmpty then c :: repairSub8 rest
    else
      let after := (c :: rest).drop tok.length
      if (after.takeWhile isPySpace).contains '\n' then
        match h : after.dropWhile isPySpace with
        | d :: rest2 =>
          if d = '"' then tok ++ ',' :: '\n' :: d :: repairSub8 rest2
          else c :: repairSub8 rest
        | [] => c :: repairSub8 rest
      else c :: repairSub8 rest
termination_by cs => cs.length
decreasing_by
  all_goals simp only [List.length_cons]
  · omega
  · have h1 := dropWhile_length_le isPySpace after
    rw [h] at h1
    simp only [List.length_cons] at h1
    have h2 : after.length ≤ (c :: rest).length := by
      simp only [after, List.length_drop, List.length_cons]
      omega
    simp only [List.length_cons] at h2
    omega

/-- llm_utils.py `_repair_json`: the eight substitutions in source order. -/
def repair_json (cs : List Char) : List Char :=
  repairSub8 (repairSub7 (repairSub6 (repairSub5
    (repairSub4 (repairSub3 (repairSub2 (repairSub1 cs)))))))

def joinLines : List (List Char) → List Char
  | [] => []
  | [l] => l
  | l :: rest => l ++ '\n' :: joinLines rest

/-- The largest line index i ≥ 1 whose stripped text is a closing fence,
or the line count when there is none (`for i in range(len(lines)-1, 0,
-1): if lines[i].strip() == "```": end_idx = i; break`). -/
def lastFenceIdx (lines : List (List Char)) : Nat :=
  let idxs := (List.range lines.length).filter
    (fun i => decide (1 ≤ i) && decide (stripChars (lines.getD i []) = "```".data))
  match idxs.getLast? with
  | some i => i
  | none => lines.length

/-- The markdown-fence stripping step of `parse_json_from_llm_response`:
drop the opening fence line and everything from the last closing fence on
(tolerating a missing closing fence). -/
def stripFences (content : List Char) : List Char :=
  if "```".data.isPrefixOf content then
    let lines := splitOnChar '\n' content
    let end_idx := lastFenceIdx lines
    joinLines ((lines.drop 1).take (end_idx - 1))
  else content

/-- The balanced-brace scan: the prefix of `cs` (which is entered at a
literal open brace) up to and including the brace that brings the running
count back to zero. The count is an integer exactly as in the source. -/
def braceScan : List Char → Int → List Char → Option (List Char)
  | [], _, _ => none
  | c :: rest, depth, acc =>
    if c = '{' then braceScan rest (depth + 1) (acc ++ [c])
    else if c = '}' then
      if depth - 1 = 0 then some (acc ++ [c])
      else braceScan rest (depth - 1) (acc ++ [c])
    else braceScan rest depth (acc ++ [c])

/-- The text-before-JSON handling of `parse_json_from_llm_response`: when
the content does not start with an open brace, cut out the
balanced-brace substring starting at the first open brace; leave the
content unchanged when there is no open brace or no balanced closer. -/
def braceExtract (content : List Char) : List Char :=
  match content with
  | '{' :: _ => content
  | _ =>
    let pre := content.takeWhile (fun c => !(c = '{'))
    match content.drop pre.length with
    | [] => content
    | suffix =>
      match braceScan suffix 0 [] with
      | some js => js
      | none => content

inductive ExtractError where
  | emptyResponse
  | parseError (original : String)
deriving DecidableEq, Repr

/-- The content-shaping pipeline of `parse_json_from_llm_response` before
the emptiness check: strip, strip fences, extract the braced substring. -/
def stripExtract (content : String) : List Char :=
  braceExtract (stripFences (stripChars content.data))

/-- llm_utils.py `parse_json_from_llm_response`: strip, strip fences,
extract the braced substring, fail on emptiness, parse strictly, repair
once and reparse, and fail with the original pre-repair decode error when
the repair attempt also fails. (The logged content preview carries no
data into the returned value and is not modelled.) -/
def parse_json_from_llm_response (loads : String → Except String JVal)
    (content : String) : Except ExtractError JVal :=
  let c3 := stripExtract content
  if c3.isEmpty then .error .emptyResponse
  else
    match loads (String.mk c3) with
    | .ok v => .ok v
    | .error e =>
      match loads (String.mk (repair_json c3)) with
      | .ok v => .ok v
      | .error _ => .error (.parseError e)

/-!
## optimizer.py — GenieSpaceOptimizer.merge_config / _apply_suggestion

`merge_config` deep-copies the input and then mutates the copy in place;
the embedding passes the (partially) mutated tree through explicitly, so
that containers created while navigating a path that later fails stay in
the merged tree, exactly as the mutation-based source behaves. Only
`field_path` and `suggested_value` of an OptimizationSuggestion are read
by the merge.
-/

structure Suggestion where
  field_path : String
  suggested_value : JVal
deriving DecidableEq

inductive Seg where
  | key (name : String)
  | idx (i : Nat)
deriving DecidableEq, Repr

def natOfDigits (ds : List Char) : Nat :=
  ds.foldl (fun n c => n * 10 + (c.toNat - '0'.toNat)) 0

/-- Match one dotted part against the lazy pattern: a shortest non-empty
name followed by exactly a bracketed digit run at the end of the part,
scanning the candidate open brackets left to right. -/
def segScan (name_rev : List Char) : List Char → Option (List Char × Nat)
  | [] => none
  | c :: rest =>
    if c = '[' && !name_rev.isEmpty then
      let digits := rest.takeWhile Char.isDigit
      if !digits.isEmpty && rest.drop digits.length = [']'] then
        some (name_rev.reverse, natOfDigits digits)
      else segScan (c :: name_rev) rest
    else segScan (c :: name_rev) rest

/-- optimizer.py path tokenization: split on dots; a part of the form
name[digits] yields the key then the index, any other part a bare key. -/
def parseFieldPath (field_path : String) : List Seg :=
  (splitOnChar '.' field_path.data).flatMap (fun part =>
    match segScan [] part with
    | some (name, i) => [Seg.key (String.mk name), Seg.idx i]
    | none => [Seg.key (String.mk part)])

/-- optimizer.py `_apply_suggestion`, one navigation step per segment.
Returns the updated tree and `none` on success, or the tree as mutated so
far and the raised message on failure. A missing key on the way creates
an empty list when the next segment is an index, else an empty dict; a
final index beyond the end pads with nulls; an intermediate index out of
range, or a type mismatch, raises. -/
def applySegs : JVal → List Seg → JVal → JVal × Option String
  | cur, [], _ => (cur, some "empty path")
  | cur, [Seg.idx i], value =>
    match cur with
    | .arr l =>
      let padded := if i < l.length then l else l ++ List.replicate (i + 1 - l.length) JVal.null
      (.arr (padded.set i value), none)
    | _ => (cur, some "Expected list for index")
  | cur, [Seg.key k], value =>
    match cur with
    | .obj fs => (.obj (setField fs k value), none)
    | _ => (cur, some "Expected dict for key")
  | cur, Seg.idx i :: rest, value =>
    match cur with
    | .arr l =>
      if h : i < l.length then
        let r := applySegs (l.get ⟨i, h⟩) rest value
        (.arr (l.set i r.1), r.2)
      else (cur, some "Invalid array index")
    | _ => (cur, some "Invalid array index")
  | cur, Seg.key k :: rest, value =>
    match cur with
    | .obj fs =>
      let child := match lookupField fs k with
        | some c => c
        | none =>
          match rest with
          | Seg.idx _ :: _ => JVal.arr []
          | _ => JVal.obj []
      let r := applySegs child rest value
      (.obj (setField fs k r.1), r.2)
    | _ => (cur, some "Expected dict")

/-- optimizer.py `_apply_suggestion` entry point. -/
def apply_suggestion (config : JVal) (field_path : String) (value : JVal) :
    JVal × Option String :=
  applySegs config (parseFieldPath field_path) value

/-- The suggestion loop of `merge_config`: (merged, applied_count,
failed_paths). A failing suggestion records its path and the loop
continues on the tree as mutated so far. -/
def mergeLoop : JVal → List Suggestion → JVal × Nat × List String
  | cfg, [] => (cfg, 0, [])
  | cfg, s :: rest =>
    let r := apply_suggestion cfg s.field_path s.suggested_value
    match r.2 with
    | none =>
      let t := mergeLoop r.1 rest
      (t.1, t.2.1 + 1, t.2.2)
    | some _ =>
      let t := mergeLoop r.1 rest
      (t.1, t.2.1, s.field_path :: t.2.2)

structure MergeResult where
  merged_config : JVal
  summary : String
deriving DecidableEq

def joinComma : List String → String
  | [] => ""
  | [p] => p
  | p :: rest => p ++ ", " ++ joinComma rest

/-- optimizer.py `merge_config` (the returned trace_id is plumbing and not
modelled). -/
def merge_config (space_data : JVal) (suggestions : List Suggestion) : MergeResult :=
  let r := mergeLoop space_data suggestions
  let applied_count := r.2.1
  let failed_paths := r.2.2
  let summary :=
    if failed_paths.isEmpty then
      "Successfully applied all " ++ toString applied_count
        ++ " suggestions to the configuration."
    else
      "Applied " ++ toString applied_count ++ " of " ++ toString suggestions.length
        ++ " suggestions. Failed paths: " ++ joinComma (failed_paths.take 3)
        ++ (if failed_paths.length > 3 then "..." else "")
  ⟨r.1, summary⟩

/-!
## genie_creator.py — constraint enforcement and config cleaning

`_enforce_constraints` is partial in the source (a non-dict value under
"instructions", or under "instructions.sql_snippets", makes `.get` raise
AttributeError); it is embedded in `Except`. `_clean_config` is total.
Leading-underscore source names lose the underscore.

CPython's `sorted` is a stable sort; `_sort_array` is embedded with
Mathlib's stable `List.insertionSort`, which produces the same list as any
stable sort under the same key order. `item.get(k, "")` produces the sort
key; a present non-string key value is modelled as the empty string (for
multi-element lists CPython would raise TypeError on such mixed-type
comparisons; no claim rests on that path, and the spec fixes "missing
keys treated as empty string for ordering purposes").
-/

def STRING_ARRAY_FIELDS : List String :=
  ["description", "content", "question", "sql", "instruction",
   "synonyms", "usage_guidance", "comment"]

def OBJECT_ARRAY_FIELDS : List String :=
  ["sample_questions", "tables", "metric_views", "column_configs",
   "text_instructions", "example_question_sqls", "sql_functions",
   "join_specs", "filters", "expressions", "measures", "questions",
   "answer", "parameters"]

/-- genie_creator.py `_SORT_REQUIREMENTS`: field name to sort key(s). -/
def SORT_REQUIREMENTS : List (String × List String) :=
  [("sample_questions", ["id"]),
   ("text_instructions", ["id"]),
   ("example_question_sqls", ["id"]),
   ("join_specs", ["id"]),
   ("filters", ["id"]),
   ("expressions", ["id"]),
   ("measures", ["id"]),
   ("questions", ["id"]),
   ("tables", ["identifier"]),
   ("metric_views", ["identifier"]),
   ("column_configs", ["column_name"]),
   ("sql_functions", ["id", "identifier"])]

def lookupSortKeys : List (String × List String) → String → Option (List String)
  | [], _ => none
  | (k, ks) :: rest, key => if k = key then some ks else lookupSortKeys rest key

/-- The sort key of one item for one key name: `item.get(k, "")`, read as
a string. -/
def getStrKey (item : JVal) (k : String) : String :=
  match item with
  | .obj fs =>
    match lookupField fs k with
    | some (.str s) => s
    | _ => ""
  | _ => ""

def sortKeyOf (ks : List String) (item : JVal) : List String :=
  ks.map (getStrKey item)

/-- Lexicographic order on key tuples, as Python compares tuples of
strings. -/
def lexLe : List String → List String → Bool
  | [], _ => true
  | _ :: _, [] => false
  | a :: as, b :: bs => if a < b then true else if a = b then lexLe as bs else false

theorem lexLe_total : ∀ (a b : List String), lexLe a b || lexLe b a := by
  intro a
  induction a with
  | nil => intro b; simp [lexLe]
  | cons x as ih =>
    intro b
    cases b with
    | nil => simp [lexLe]
    | cons y bs =>
      simp only [lexLe]
      rcases lt_trichotomy x y with h | h | h
      · simp [h]
      · subst h
        simp only [lt_self_iff_false, if_false, if_pos rfl]
        exact ih bs
      · have hxy : ¬ x < y := not_lt_of_lt h
        have hne : ¬ x = y := ne_of_gt h
        have hne2 : ¬ y = x := fun e => hne e.symm
        simp [hxy, hne, h, hne2]

theorem lexLe_trans : ∀ (a b c : List String),
    lexLe a b = true → lexLe b c = true → lexLe a c = true := by
  intro a
  induction a with
  | nil => intro b c _ _; simp [lexLe]
  | cons x as ih =>
    intro b c hab hbc
    cases b with
    | nil => simp [lexLe] at hab
    | cons y bs =>
      cases c with
      | nil => simp [lexLe] at hbc
      | cons z cs =>
        simp only [lexLe] at hab hbc ⊢
        rcases lt_trichotomy x y with h1 | h1 | h1
        · rcases lt_trichotomy y z with h2 | h2 | h2
          · simp [lt_trans h1 h2]
          · subst h2; simp [h1]
          · simp only [if_pos h1] at hab
            rcases lt_trichotomy y z with h3 | h3 | h3
            · simp [lt_trans h1 h3]
            · subst h3; simp [h1]
            · exfalso
              have hyz : ¬ y < z := not_lt_of_lt h3
              have hne : ¬ y = z := fun e => (ne_of_gt h3) e
              simp [hyz, hne] at hbc
        · subst h1
          rcases lt_trichotomy x z with h2 | h2 | h2
          · simp [h2]
          · subst h2
            simp only [lt_self_iff_false, if_false, if_pos rfl] at hab hbc ⊢
            exact ih bs cs hab hbc
          · exfalso
            have hxz : ¬ x < z := not_lt_of_lt h2
            have hne : ¬ x = z := fun e => (ne_of_gt h2) e
            simp [hxz, hne] at hbc
        · exfalso
          have hxy : ¬ x < y := not_lt_of_lt h1
          have hne : ¬ x = y := fun e => (ne_of_gt h1) e
          simp [hxy, hne] at hab

/-- The comparison `_sort_array` sorts by, as a decidable relation. -/
def sortRel (ks : List String) (a b : JVal) : Prop :=
  lexLe (sortKeyOf ks a) (sortKeyOf ks b) = true

instance (ks : List String) : DecidableRel (sortRel ks) := fun a b =>
  decEq _ _

instance (ks : List String) : IsTotal JVal (sortRel ks) :=
  ⟨fun a b => by
    have := lexLe_total (sortKeyOf ks a) (sortKeyOf ks b)
    rcases Bool.or_eq_true_iff.mp this with h | h
    · exact Or.inl h
    · exact Or.inr h⟩

instance (ks : List String) : IsTrans JVal (sortRel ks) :=
  ⟨fun a b c => lexLe_trans _ _ _⟩

/-- genie_creator.py `_sort_array`: returns the input unchanged when it is
empty or holds a non-dict; otherwise the stable sort by the key tuple. -/
def sort_array (ks : List String) (items : List JVal) : List JVal :=
  if items.isEmpty then items
  else if !(items.all JVal.isObj) then items
  else List.insertionSort (sortRel ks) items

mutual

/-- genie_creator.py `_clean_config`. The source's object-array wrap
`[_clean_config(obj, None)]` is written here with the recursion on the
fields inlined (`_clean_config(obj, None)` of a dict is exactly the dict
with each field cleaned under its own key). -/
def clean_config (key : Option String) : JVal → JVal
  | .obj fs =>
    if (match key with | some k => OBJECT_ARRAY_FIELDS.contains k | none => false) then
      .arr [.obj (cleanFields fs)]
    else .obj (cleanFields fs)
  | .arr xs =>
    let cleaned := cleanItems xs
    match key with
    | some k =>
      match lookupSortKeys SORT_REQUIREMENTS k with
      | some ks => if cleaned.isEmpty then .arr cleaned else .arr (sort_array ks cleaned)
      | none => .arr cleaned
    | none => .arr cleaned
  | .str s =>
    if (match key with | some k => STRING_ARRAY_FIELDS.contains k | none => false) then
      .arr [.str s]
    else .str s
  | .null => .null
  | .bool b => .bool b
  | .num n => .num n

/-- `{k: _clean_config(v, k) for k, v in obj.items()}`. -/
def cleanFields : List (String × JVal) → List (String × JVal)
  | [] => []
  | (k, v) :: rest => (k, clean_config (some k) v) :: cleanFields rest

/-- `[_clean_config(item, None) for item in obj if item is not None]`. -/
def cleanItems : List JVal → List JVal
  | [] => []
  | x :: rest =>
    if x = JVal.null then cleanItems rest
    else clean_config none x :: cleanItems rest

end

/-- Whether a sql-snippet entry is kept by `_enforce_constraints`: a
non-dict entry is kept as-is; a dict entry is kept iff its sql field is
truthy and is a list holding a non-blank string, or a non-blank string. -/
def keepSnippet (item : JVal) : Bool :=
  match item with
  | .obj fs =>
    let sql_field := (lookupField fs "sql").getD (.arr [])
    pyTruthy sql_field &&
      ((sql_field.isArr && anyNonBlank sql_field) ||
       (match sql_field with | .str s => !(pyStrip s).data.isEmpty | _ => false))
  | _ => true

/-- One snippet type of the `_enforce_constraints` loop. A missing key is
read as the empty list, which is then assigned back filtered — adding the
key; a present non-list value is left untouched (no assignment). -/
def snippetFieldPass (sn : List (String × JVal)) (t : String) : List (String × JVal) :=
  match lookupField sn t with
  | none => setField sn t (.arr [])
  | some (.arr items) => setField sn t (.arr (items.filter keepSnippet))
  | some _ => sn

/-- The text-instruction truncation of `_enforce_constraints`: a list of
more than one entry is cut to its first entry; anything else is left
alone. -/
def truncate_text_instructions (instr : List (String × JVal)) :
    List (String × JVal) :=
  match lookupField instr "text_instructions" with
  | some (.arr l) =>
    if l.length > 1 then setField instr "text_instructions" (.arr (l.take 1))
    else instr
  | _ => instr

/-- genie_creator.py `_enforce_constraints`. When "instructions" is
missing, or "sql_snippets" is missing under it, the source operates on a
fresh empty dict whose mutations are dropped; a present non-dict value at
either key raises AttributeError at `.get`. (The source binds the
truncated instructions dict once; it is repeated here instead of
let-bound, with identical meaning.) -/
def enforce_constraints (config : List (String × JVal)) :
    Except String (List (String × JVal)) :=
  match lookupField config "instructions" with
  | none => .ok config
  | some (.obj instr0) =>
    match lookupField (truncate_text_instructions instr0) "sql_snippets" with
    | none =>
      .ok (setField config "instructions" (.obj (truncate_text_instructions instr0)))
    | some (.obj sn0) =>
      .ok (setField config "instructions"
        (.obj (setField (truncate_text_instructions instr0) "sql_snippets"
          (.obj ((["filters", "expressions", "measures"]).foldl snippetFieldPass sn0)))))
    | some _ => .error "AttributeError: sql_snippets"
  | some _ => .error "AttributeError: instructions"

/-- The normalization applied before space creation
(`create_genie_space`): `_enforce_constraints` then `_clean_config` on
the resulting top-level dict. -/
def normalize_config (config : List (String × JVal)) :
    Except String (List (String × JVal)) :=
  (enforce_constraints config).map cleanFields

/-!
## Claim theorems
-/

/-- Claim C4, counterexample: the claim says every deterministic check
called with section_data = None yields details "Section not configured",
but `check_column_descriptions_exist(None)` yields details "No tables
configured" (several other checks use similar messages). -/
theorem C4_none_details_counterexample :
    (check_column_descriptions_exist none).details = some "No tables configured" ∧
    (check_column_descriptions_exist none).details ≠ some "Section not configured" := by
  constructor
  · rfl
  · decide

/-- Claim C4, amended: every DeterministicCheckEngine function called
with section_data = None returns passed = false (fail-closed); the
details string varies by check ("Section not configured", "No tables
configured", "No metric views configured", ...), not always the single
literal the claim states. -/
theorem C4_fail_closed_on_none :
    (check_sample_questions_exist none).passed = false ∧
    (check_tables_exist none).passed = false ∧
    (check_tables_count_limit none).passed = false ∧
    (check_column_descriptions_exist none).passed = false ∧
    (check_column_synonyms_exist none).passed = false ∧
    (check_example_values_enabled none).passed = false ∧
    (check_value_dictionary_enabled none).passed = false ∧
    (check_columns_excluded none).passed = false ∧
    (check_metric_views_have_descriptions none).passed = false ∧
    (check_text_instructions_exist none).passed = false ∧
    (check_example_sqls_exist none).passed = false ∧
    (check_parameters_have_descriptions none).passed = false ∧
    (check_usage_guidance_provided none).passed = false ∧
    (check_sql_functions_registered none).passed = false ∧
    (∀ tables_data, (check_join_specs_defined none tables_data).passed = false) ∧
    (check_filters_exist none).passed = false ∧
    (check_expressions_exist none).passed = false ∧
    (check_measures_exist none).passed = false ∧
    (check_benchmark_questions_exist none).passed = false := by
  refine ⟨rfl, rfl, rfl, rfl, rfl, rfl, rfl, rfl, rfl, rfl, rfl, rfl, rfl, rfl,
    fun tables_data => rfl, rfl, rfl, rfl, rfl⟩

/-- The three-line checklist document of claim C9. -/
def c9_document : String :=
  "## `data_sources`\n### `tables`\n- [ ] At least 1 table is configured"

/-- Claim C9: parsing a checklist document holding the data_sources
heading, the tables subheading and the checkbox line produces exactly one
item, under "data_sources.tables", whose id is the deterministic slug of
the description; every other recognized section maps to the empty list
(the source initializes all recognized sections with empty item lists,
which read back the same as absent keys). -/
theorem C9_parse_checklist_concrete :
    lookupItems (parse_checklist_markdown c9_document) "data_sources.tables"
      = some [⟨"at-least-1-table-is-configured", "At least 1 table is configured"⟩] ∧
    (∀ s ∈ RECOGNIZED_SECTIONS, s ≠ "data_sources.tables" →
      lookupItems (parse_checklist_markdown c9_document) s = some []) ∧
    slugify "At least 1 table is configured" = "at-least-1-table-is-configured" ∧
    (parse_checklist_markdown c9_document).map (·.1) = RECOGNIZED_SECTIONS := by
  refine ⟨by decide, by decide, by decide, by decide⟩

/-- Claim C10, counterexample: the claim says the recognized-path
enumeration contains config.sample_questions, but checklist_parser.py's
RECOGNIZED_SECTIONS does not hold that path. -/
theorem C10_sample_questions_not_recognized :
    "config.sample_questions" ∉ RECOGNIZED_SECTIONS := by
  decide

/-- Claim C10, amended: the in-source enumeration RECOGNIZED_SECTIONS
holds exactly the spec's eleven paths minus config.sample_questions, and
it is declared as an unordered Python set; the ordered SECTIONS sequence
that agent.py imports and iterates is not defined anywhere in the source
(the import would fail), so order preservation holds only of the
spec-modelled SECTIONS list. -/
theorem C10_recognized_sections_amended :
    (∀ s, s ∈ RECOGNIZED_SECTIONS ↔
      (s ∈ SECTIONS_spec ∧ s ≠ "config.sample_questions")) ∧
    "config.sample_questions" ∈ SECTIONS_spec := by
  constructor
  · intro s
    have h : RECOGNIZED_SECTIONS
        = SECTIONS_spec.filter (fun t => decide (t ≠ "config.sample_questions")) := by
      decide
    rw [h, List.mem_filter]
    simp
  · decide

theorem checklistScore_all_failed (c : List ChecklistItem)
    (h : ∀ it ∈ c, it.passed = false) : checklistScore c = 0 := by
  have hf : c.filter (·.passed) = [] := by
    rw [List.filter_eq_nil_iff]
    intro it hit
    simp [h it hit]
  unfold checklistScore
  rw [hf]
  simp only [List.length_nil, Nat.zero_mul]
  split
  · unfold roundHalfEven
    rename_i hpos
    simp only [Nat.zero_div, Nat.zero_mod]
    have : 2 * 0 < c.length := by omega
    simp [this]
  · rfl

/-- Claim C2: evaluating any section path with section_data = None yields
the missing-section analysis: every registry item for the path appears in
the checklist failed with details "Section not configured", the findings
are exactly one Finding of category suggestion / severity medium, the
score is the checklist score of the all-failing checklist (hence 0), and
the result does not depend on the LLM response (the LLM is not called on
this path). -/
theorem C2_missing_section_analysis :
    ∀ (registry : String → List RegistryItem) (o1 o2 : LLMResult)
      (section_name : String) (full_space : Option JVal),
      (analyze_section registry o1 section_name none full_space).checklist
        = (registry section_name).map (fun item =>
            ⟨item.id, item.description, false, some "Section not configured"⟩) ∧
      (analyze_section registry o1 section_name none full_space).findings.map
          (fun f => (f.category, f.severity)) = [("suggestion", "medium")] ∧
      (analyze_section registry o1 section_name none full_space).score
        = checklistScore
            (analyze_section registry o1 section_name none full_space).checklist ∧
      (analyze_section registry o1 section_name none full_space).score = 0 ∧
      analyze_section registry o1 section_name none full_space
        = analyze_section registry o2 section_name none full_space := by
  intro registry o1 o2 section_name full_space
  refine ⟨rfl, rfl, rfl, ?_, rfl⟩
  show checklistScore ((registry section_name).map _) = 0
  apply checklistScore_all_failed
  intro it hit
  obtain ⟨item, _, rfl⟩ := List.mem_map.mp hit
  rfl

/-- Claim C1: on a configured section, the checklist returned by
`analyze_section` holds exactly the registry items for the path (each
judged from the LLM response alone) — the DeterministicCheckEngine's
results (`get_programmatic_checks_for_section`) are never added, for any
registry, oracle, section name or data. -/
theorem C1_checklist_is_registry_only :
    ∀ (registry : String → List RegistryItem) (oracle : LLMResult)
      (section_name : String) (d : JVal) (full_space : Option JVal),
      (analyze_section registry oracle section_name (some d) full_space).checklist.map
          (·.id)
        = (registry section_name).map (·.id) := by
  intro registry oracle section_name d full_space
  simp only [analyze_section]
  split
  · rename_i hempty
    rw [List.isEmpty_iff.mp hempty]
    rfl
  · simp only [List.map_map]
    apply List.map_congr_left
    intro item _
    simp only [Function.comp_apply]
    cases lastEval oracle.evaluations item.id <;> rfl

/-- The concrete registry and LLM response of claim C3's counterexample:
the response marks the single item passed and still returns a finding
whose reference is that item's id. -/
def c3_registry : String → List RegistryItem := fun _ => [⟨"x", "a description"⟩]

def c3_oracle : LLMResult :=
  ⟨[⟨"x", some true, some "looks good"⟩],
   [⟨"warning", "high", "x failed", "fix it", "x"⟩], "summary"⟩

/-- Claim C3, counterexample: analyze_section passes LLM findings through
unfiltered, so an LLM response that marks item "x" as passed while also
returning a finding referencing "x" produces a SectionAnalysis holding a
finding that cites a passed checklist item — the claimed invariant fails. -/
theorem C3_finding_for_passed_item_counterexample :
    ((analyze_section c3_registry c3_oracle "data_sources.tables"
        (some (.arr [])) none).checklist.any (fun it =>
      it.passed && (analyze_section c3_registry c3_oracle "data_sources.tables"
        (some (.arr [])) none).findings.any (fun f => f.reference == it.id))) = true := by
  decide

/-- Claim C3, amended: the evaluator does not filter findings against
passed items. For a configured section with a non-empty registry the
findings are exactly the LLM response's findings (so the no-finding-for-
passed-items invariant holds only when the response itself satisfies it;
the prompt asks for that but nothing enforces it); with an empty registry
there are no findings; and in the missing-section path every checklist
item fails, so the invariant holds vacuously there. -/
theorem C3_findings_passed_through :
    ∀ (registry : String → List RegistryItem) (oracle : LLMResult)
      (section_name : String) (d : JVal) (full_space : Option JVal),
      ((registry section_name).isEmpty = false →
        (analyze_section registry oracle section_name (some d) full_space).findings
          = oracle.findings) ∧
      ((registry section_name).isEmpty = true →
        (analyze_section registry oracle section_name (some d) full_space).findings
          = []) ∧
      (∀ item ∈ (analyze_section registry oracle section_name none full_space).checklist,
        item.passed = false) := by
  intro registry oracle section_name d full_space
  refine ⟨?_, ?_, ?_⟩
  · intro h
    unfold analyze_section
    simp [h]
  · intro h
    unfold analyze_section
    simp [h]
  · intro item hmem
    unfold analyze_section create_missing_section_analysis at hmem
    simp only at hmem
    obtain ⟨it, _, rfl⟩ := List.mem_map.mp hmem
    rfl

/-- Claim C3, witness for the amended theorem: at the concrete registry
and oracle of the counterexample, the registry is non-empty and the
findings of the produced analysis are exactly the oracle's findings. -/
theorem C3_findings_passed_through_witness :
    (c3_registry "data_sources.tables").isEmpty = false ∧
    (analyze_section c3_registry c3_oracle "data_sources.tables"
        (some (.arr [])) none).findings = c3_oracle.findings :=
  ⟨by decide,
   (C3_findings_passed_through c3_registry c3_oracle "data_sources.tables"
      (.arr []) none).1 (by decide)⟩

/-- The five-suggestion batch of claim C6: suggestion #3 has a path whose
intermediate index cannot be navigated. -/
def c6_suggestions : List Suggestion :=
  [⟨"a", .num 1⟩, ⟨"b", .num 2⟩, ⟨"bad[0].c", .num 3⟩, ⟨"d", .num 4⟩, ⟨"e", .num 5⟩]

/-- Claim C6: merge is partial-failure tolerant. In general, every
suggestion is either applied or recorded in failed_paths (their counts
sum to the batch size), and a failing suggestion records its path while
the loop continues over the rest; concretely, for five suggestions where
exactly the third has an invalid path, four are applied and the summary
reports "Applied 4 of 5" with the single failed path. -/
theorem C6_merge_partial_failure_tolerance :
    (∀ (cfg : JVal) (suggestions : List Suggestion),
      (mergeLoop cfg suggestions).2.1 + (mergeLoop cfg suggestions).2.2.length
        = suggestions.length) ∧
    (∀ (cfg : JVal) (s : Suggestion) (rest : List Suggestion) (e : String),
      (apply_suggestion cfg s.field_path s.suggested_value).2 = some e →
        (mergeLoop cfg (s :: rest)).2.1
          = (mergeLoop (apply_suggestion cfg s.field_path s.suggested_value).1 rest).2.1 ∧
        (mergeLoop cfg (s :: rest)).2.2
          = s.field_path ::
            (mergeLoop (apply_suggestion cfg s.field_path s.suggested_value).1 rest).2.2) ∧
    (merge_config (.obj []) c6_suggestions).summary
      = "Applied 4 of 5 suggestions. Failed paths: bad[0].c" ∧
    (merge_config (.obj []) c6_suggestions).merged_config
      = .obj [("a", .num 1), ("b", .num 2), ("bad", .arr []),
              ("d", .num 4), ("e", .num 5)] ∧
    (mergeLoop (.obj []) c6_suggestions).2.1 = 4 ∧
    (mergeLoop (.obj []) c6_suggestions).2.2 = ["bad[0].c"] := by
  refine ⟨?_, ?_, by decide, by decide, by decide, by decide⟩
  · intro cfg suggestions
    induction suggestions generalizing cfg with
    | nil => simp [mergeLoop]
    | cons s rest ih =>
      have h1 := ih (apply_suggestion cfg s.field_path s.suggested_value).1
      simp only [mergeLoop]
      split <;> simp only [List.length_cons] <;> omega
  · intro cfg s rest e h
    simp [mergeLoop, h]

/-- Claim C6, witness for the failure-recording conjunct: the invalid
third suggestion fails with an index error and its path heads the failed
list of the loop over it and the remaining batch. -/
theorem C6_witness :
    (apply_suggestion (.obj []) "bad[0].c" (.num 3)).2 = some "Invalid array index" ∧
    (mergeLoop (.obj []) (⟨"bad[0].c", .num 3⟩ :: [⟨"d", .num 4⟩])).2.2
      = "bad[0].c" ::
        (mergeLoop (apply_suggestion (.obj []) "bad[0].c" (.num 3)).1
          [⟨"d", .num 4⟩]).2.2 :=
  ⟨by decide,
   ((C6_merge_partial_failure_tolerance).2.1 (.obj []) ⟨"bad[0].c", .num 3⟩
      [⟨"d", .num 4⟩] "Invalid array index" (by decide)).2⟩

theorem replicate_set_last (i : Nat) (v : JVal) :
    (List.replicate (i + 1) JVal.null).set i v = List.replicate i JVal.null ++ [v] := by
  induction i with
  | zero => rfl
  | succ i ih =>
    have h1 : List.replicate (i + 1 + 1) JVal.null
        = JVal.null :: List.replicate (i + 1) JVal.null := rfl
    rw [h1, List.set_cons_succ, ih]
    rfl

theorem padSet_eq (l : List JVal) (i : Nat) (v : JVal) (h : l.length ≤ i) :
    (l ++ List.replicate (i + 1 - l.length) JVal.null).set i v
      = l ++ List.replicate (i - l.length) JVal.null ++ [v] := by
  induction l generalizing i with
  | nil => simpa using replicate_set_last i v
  | cons x xs ih =>
    cases i with
    | zero => simp at h
    | succ i =>
      simp only [List.length_cons] at h
      have h2 : xs.length ≤ i := by omega
      have hlen : i + 1 + 1 - (xs.length + 1) = i + 1 - xs.length := by omega
      have hlen2 : i + 1 - (xs.length + 1) = i - xs.length := by omega
      simp only [List.length_cons, List.cons_append, List.set_cons_succ, hlen, hlen2]
      rw [ih i h2]

/-- Claim C7, counterexample: the claim says a suggestion such as
"a[0].b" with key "a" absent is applied successfully, but navigation
creates the empty sequence for "a" and then fails on index 0 against it
(padding happens only at a final index segment), so the path is recorded
as failed — and the created empty sequence stays in the tree. -/
theorem C7_intermediate_index_counterexample :
    apply_suggestion (.obj []) "a[0].b" (.str "v")
      = (.obj [("a", .arr [])], some "Invalid array index") ∧
    (mergeLoop (.obj []) [⟨"a[0].b", .str "v"⟩]).2.2 = ["a[0].b"] := by
  exact ⟨by decide, by decide⟩

/-- Claim C7, amended: navigation creates a missing intermediate mapping
(or an empty sequence when the next segment is an index), and a final
index at or past the end of an existing sequence pads with nulls before
assignment; but an intermediate integer index beyond the current length —
including into a just-created empty sequence, as in "a[0].b" with "a"
absent — raises and the suggestion is recorded as a failed path. -/
theorem C7_creation_and_padding :
    (∀ v : JVal, apply_suggestion (.obj []) "a.b" v
        = (.obj [("a", .obj [("b", v)])], none)) ∧
    (∀ v : JVal, apply_suggestion (.obj []) "a[0]" v
        = (.obj [("a", .arr [v])], none)) ∧
    (∀ (l : List JVal) (i : Nat) (v : JVal), l.length ≤ i →
      applySegs (.arr l) [Seg.idx i] v
        = (.arr (l ++ List.replicate (i - l.length) JVal.null ++ [v]), none)) ∧
    (∀ (l : List JVal) (i : Nat) (v : JVal), i < l.length →
      applySegs (.arr l) [Seg.idx i] v = (.arr (l.set i v), none)) ∧
    (∀ v : JVal, apply_suggestion (.obj []) "a[0].b" v
        = (.obj [("a", .arr [])], some "Invalid array index")) ∧
    (∀ v : JVal, (mergeLoop (.obj []) [⟨"a[0].b", v⟩]).2.2 = ["a[0].b"]) := by
  refine ⟨fun v => rfl, fun v => rfl, ?_, ?_, fun v => rfl, fun v => rfl⟩
  · intro l i v h
    have hni : ¬ i < l.length := by omega
    simp only [applySegs, hni, if_false]
    rw [padSet_eq l i v h]
  · intro l i v h
    simp only [applySegs, h, if_true]

/-- Claim C7, witness: padding a final index 3 past the end of a
one-element list yields the list extended with two nulls and the value. -/
theorem C7_witness :
    ([JVal.str "x"].length ≤ 3) ∧
    applySegs (.arr [JVal.str "x"]) [Seg.idx 3] (.str "v")
      = (.arr [JVal.str "x", JVal.null, JVal.null, JVal.str "v"], none) :=
  ⟨by decide, by
    have h := (C7_creation_and_padding).2.2.1 [JVal.str "x"] 3 (.str "v") (by decide)
    simpa using h⟩

/-- Claim C8: the extractor never returns a value on failure and
distinguishes two failures: content empty after fence stripping and
brace extraction raises the empty-response error (whatever the parser
would do), and non-empty content on which strict parsing and the single
repair re-attempt both fail raises a parse error carrying the original
pre-repair decode error. -/
theorem C8_extractor_error_paths :
    ∀ (loads : String → Except String JVal) (raw : String),
      (stripExtract raw = [] →
        parse_json_from_llm_response loads raw = .error .emptyResponse) ∧
      (∀ e1 e2 : String, stripExtract raw ≠ [] →
        loads (String.mk (stripExtract raw)) = .error e1 →
        loads (String.mk (repair_json (stripExtract raw))) = .error e2 →
        parse_json_from_llm_response loads raw = .error (.parseError e1)) := by
  intro loads raw
  constructor
  · intro h
    simp [parse_json_from_llm_response, h]
  · intro e1 e2 hne h1 h2
    have hempty : (stripExtract raw).isEmpty = false := by
      cases hh : stripExtract raw with
      | nil => exact absurd hh hne
      | cons c rest => rfl
    simp [parse_json_from_llm_response, hempty, h1, h2]

/-- Claim C8, witness: on content "x" (non-empty after stripping) with a
parser that always fails with "boom", the extractor raises the parse
error carrying that original error. -/
theorem C8_witness :
    stripExtract "x" ≠ [] ∧
    parse_json_from_llm_response (fun _ => Except.error "boom") "x"
      = .error (.parseError "boom") :=
  ⟨by decide,
   (C8_extractor_error_paths (fun _ => Except.error "boom") "x").2 "boom" "boom"
     (by decide) rfl rfl⟩

/-- Claim C9, witness: benchmarks.questions is a recognized section other
than data_sources.tables and parses to the empty item list in the
three-line document. -/
theorem C9_witness :
    "benchmarks.questions" ∈ RECOGNIZED_SECTIONS ∧
    lookupItems (parse_checklist_markdown c9_document) "benchmarks.questions"
      = some [] :=
  ⟨by decide,
   C9_parse_checklist_concrete.2.1 "benchmarks.questions" (by decide) (by decide)⟩

/-!
## Claim C5 — normalization idempotence machinery
-/

instance : DecidableEq (Except String (List (String × JVal))) := fun a b =>
  match a, b with
  | .ok x, .ok y =>
    if h : x = y then isTrue (by rw [h]) else isFalse (by intro e; cases e; exact h rfl)
  | .error x, .error y =>
    if h : x = y then isTrue (by rw [h]) else isFalse (by intro e; cases e; exact h rfl)
  | .ok _, .error _ => isFalse (by intro e; cases e)
  | .error _, .ok _ => isFalse (by intro e; cases e)

theorem lookup_setField_self (fs : List (String × JVal)) (k : String) (v : JVal) :
    lookupField (setField fs k v) k = some v := by
  induction fs with
  | nil => simp [setField, lookupField]
  | cons p rest ih =>
    obtain ⟨k1, v1⟩ := p
    by_cases h : k1 = k
    · simp [setField, lookupField, h]
    · simp [setField, lookupField, h, ih]

theorem lookup_setField_other (fs : List (String × JVal)) (k k' : String) (v : JVal)
    (h : k' ≠ k) : lookupField (setField fs k v) k' = lookupField fs k' := by
  have hk : ¬ k = k' := fun e => h e.symm
  induction fs with
  | nil => simp [setField, lookupField, hk]
  | cons p rest ih =>
    obtain ⟨k1, v1⟩ := p
    by_cases h1 : k1 = k
    · subst h1
      simp [setField, lookupField, hk]
    · by_cases h2 : k1 = k'
      · simp [setField, lookupField, h1, h2, h]
      · simp [setField, lookupField, h1, h2, ih]

theorem setField_lookup_eq_self (fs : List (String × JVal)) (k : String) (v : JVal)
    (h : lookupField fs k = some v) : setField fs k v = fs := by
  induction fs with
  | nil => simp [lookupField] at h
  | cons p rest ih =>
    obtain ⟨k1, v1⟩ := p
    by_cases h1 : k1 = k
    · subst h1
      rw [lookupField, if_pos rfl] at h
      obtain rfl := Option.some.inj h
      simp [setField]
    · rw [lookupField, if_neg h1] at h
      simp [setField, h1, ih h]

theorem lookup_cleanFields (fs : List (String × JVal)) (k : String) :
    lookupField (cleanFields fs) k
      = (lookupField fs k).map (clean_config (some k)) := by
  induction fs with
  | nil => simp [cleanFields, lookupField]
  | cons p rest ih =>
    obtain ⟨k1, v1⟩ := p
    by_cases h : k1 = k
    · subst h
      simp [cleanFields, lookupField]
    · simp [cleanFields, lookupField, h, ih]

theorem sort_array_mem (ks : List String) (l : List JVal) (x : JVal)
    (h : x ∈ sort_array ks l) : x ∈ l := by
  unfold sort_array at h
  split at h
  · exact h
  · split at h
    · exact h
    · exact (List.perm_insertionSort (sortRel ks) l).mem_iff.mp h

theorem sort_array_length (ks : List String) (l : List JVal) :
    (sort_array ks l).length = l.length := by
  unfold sort_array
  split
  · rfl
  · split
    · rfl
    · exact (List.perm_insertionSort (sortRel ks) l).length_eq

theorem sort_array_all_isObj (ks : List String) (l : List JVal)
    (h : l.all JVal.isObj = true) : (sort_array ks l).all JVal.isObj = true := by
  rw [List.all_eq_true] at h ⊢
  intro x hx
  exact h x (sort_array_mem ks l x hx)

theorem sort_array_idem (ks : List String) (l : List JVal) :
    sort_array ks (sort_array ks l) = sort_array ks l := by
  by_cases he : l.isEmpty
  · unfold sort_array
    simp [he]
  · by_cases ha : l.all JVal.isObj
    · have h1 : sort_array ks l = List.insertionSort (sortRel ks) l := by
        unfold sort_array
        simp [he, ha]
      have hsorted : List.Sorted (sortRel ks) (sort_array ks l) := by
        rw [h1]
        exact List.sorted_insertionSort (sortRel ks) l
      have hl0 : l ≠ [] := by
        intro e
        subst e
        exact he rfl
      have he2 : (sort_array ks l).isEmpty = false := by
        cases hsa : sort_array ks l with
        | nil =>
          exfalso
          have hlen := sort_array_length ks l
          rw [hsa] at hlen
          exact hl0 (List.length_eq_zero.mp hlen.symm)
        | cons a as => rfl
      have ha2 := sort_array_all_isObj ks l ha
      have hstep : ∀ (m : List JVal), m.isEmpty = false → m.all JVal.isObj = true →
          sort_array ks m = List.insertionSort (sortRel ks) m := by
        intro m hm1 hm2
        unfold sort_array
        rw [hm1, hm2]
        simp
      rw [hstep _ he2 ha2, hsorted.insertionSort_eq]
    · have h1 : sort_array ks l = l := by
        unfold sort_array
        simp [he, ha]
      rw [h1, h1]

theorem sort_array_singleton (ks : List String) (x : JVal) :
    sort_array ks [x] = [x] := by
  unfold sort_array
  split
  · rfl
  · split
    · rfl
    · rfl

theorem clean_none_obj (fs : List (String × JVal)) :
    clean_config none (.obj fs) = .obj (cleanFields fs) := rfl

theorem clean_none_ne_null (x : JVal) (h : x ≠ JVal.null) :
    clean_config none x ≠ JVal.null := by
  cases x with
  | null => exact absurd rfl h
  | bool b => simp [clean_config]
  | num n => simp [clean_config]
  | str s => simp [clean_config]
  | arr xs => simp [clean_config]
  | obj fs => simp [clean_config]

theorem mem_cleanItems_iff (l : List JVal) (x : JVal) :
    x ∈ cleanItems l ↔ ∃ y ∈ l, y ≠ JVal.null ∧ x = clean_config none y := by
  induction l with
  | nil => simp [cleanItems]
  | cons z rest ih =>
    by_cases hz : z = JVal.null
    · subst hz
      rw [show cleanItems (JVal.null :: rest) = cleanItems rest from by
        simp [cleanItems]]
      rw [ih]
      constructor
      · rintro ⟨y, hy, hyn, hx⟩
        exact ⟨y, by simp [hy], hyn, hx⟩
      · rintro ⟨y, hy, hyn, hx⟩
        rcases List.mem_cons.mp hy with rfl | hy2
        · exact absurd rfl hyn
        · exact ⟨y, hy2, hyn, hx⟩
    · rw [show cleanItems (z :: rest) = clean_config none z :: cleanItems rest from by
        simp [cleanItems, hz]]
      simp only [List.mem_cons, ih]
      constructor
      · rintro (rfl | ⟨y, hy, hyn, hx⟩)
        · exact ⟨z, Or.inl rfl, hz, rfl⟩
        · exact ⟨y, Or.inr hy, hyn, hx⟩
      · rintro ⟨y, (rfl | hy), hyn, hx⟩
        · exact Or.inl hx
        · exact Or.inr ⟨y, hy, hyn, hx⟩

theorem cleanItems_fixed_of (l : List JVal)
    (h : ∀ x ∈ l, x ≠ JVal.null ∧ clean_config none x = x) :
    cleanItems l = l := by
  induction l with
  | nil => rfl
  | cons z rest ih =>
    obtain ⟨hz, hfix⟩ := h z (by simp)
    rw [show cleanItems (z :: rest) = clean_config none z :: cleanItems rest from by
      simp [cleanItems, hz]]
    rw [hfix, ih (fun x hx => h x (by simp [hx]))]

theorem cleanFields_idem_of (fs : List (String × JVal))
    (h : ∀ p ∈ fs, ∀ key, clean_config key (clean_config key p.2) = clean_config key p.2) :
    cleanFields (cleanFields fs) = cleanFields fs := by
  induction fs with
  | nil => rfl
  | cons p rest ih =>
    obtain ⟨k, v⟩ := p
    rw [show cleanFields ((k, v) :: rest) = (k, clean_config (some k) v) :: cleanFields rest
      from rfl]
    rw [show cleanFields ((k, clean_config (some k) v) :: cleanFields rest)
      = (k, clean_config (some k) (clean_config (some k) v)) :: cleanFields (cleanFields rest)
      from rfl]
    rw [h (k, v) (by simp) (some k), ih (fun p hp => h p (by simp [hp]))]

theorem clean_config_idem : ∀ (key : Option String) (v : JVal),
    clean_config key (clean_config key v) = clean_config key v := by
  have main : ∀ (n : Nat) (v : JVal), sizeOf v ≤ n → ∀ key,
      clean_config key (clean_config key v) = clean_config key v := by
    intro n
    induction n with
    | zero =>
      intro v hv key
      exfalso
      cases v <;>
        simp only [JVal.null.sizeOf_spec, JVal.bool.sizeOf_spec, JVal.num.sizeOf_spec,
          JVal.str.sizeOf_spec, JVal.arr.sizeOf_spec, JVal.obj.sizeOf_spec] at hv <;>
        omega
    | succ n ih =>
      intro v hv key
      cases v with
      | null => rfl
      | bool b => rfl
      | num m => rfl
      | str s =>
        by_cases hk : (match key with
          | some k => decide (k ∈ STRING_ARRAY_FIELDS)
          | none => false) = true
        · have h0 : clean_config key (.str s) = .arr [.str s] := by
            simp [clean_config, hk]
          rw [h0]
          have h1 : cleanItems [JVal.str s] = [JVal.str s] := by
            simp [cleanItems, clean_config]
          obtain ⟨k, rfl⟩ : ∃ k, key = some k := by
            cases key with
            | none => simp at hk
            | some k => exact ⟨k, rfl⟩
          cases hsk : lookupSortKeys SORT_REQUIREMENTS k with
          | none => simp [clean_config, h1, hsk]
          | some ks => simp [clean_config, h1, hsk, sort_array_singleton]
        · have h0 : clean_config key (.str s) = .str s := by
            simp [clean_config, hk]
          rw [h0, h0]
      | arr xs =>
        have hsz : ∀ x ∈ xs, sizeOf x ≤ n := by
          intro x hx
          have := List.sizeOf_lt_of_mem hx
          simp only [JVal.arr.sizeOf_spec] at hv
          omega
        have ihElems : ∀ x ∈ xs, ∀ key2,
            clean_config key2 (clean_config key2 x) = clean_config key2 x :=
          fun x hx key2 => ih x (hsz x hx) key2
        have hfix : ∀ x ∈ cleanItems xs, x ≠ JVal.null ∧ clean_config none x = x := by
          intro x hx
          obtain ⟨y, hy, hyn, rfl⟩ := (mem_cleanItems_iff xs x).mp hx
          exact ⟨clean_none_ne_null y hyn, ihElems y hy none⟩
        have hself : cleanItems (cleanItems xs) = cleanItems xs :=
          cleanItems_fixed_of _ hfix
        cases key with
        | none =>
          have h0 : clean_config none (.arr xs) = .arr (cleanItems xs) := by
            simp [clean_config]
          rw [h0]
          simp [clean_config, hself]
        | some k =>
          cases hsk : lookupSortKeys SORT_REQUIREMENTS k with
          | none =>
            have h0 : clean_config (some k) (.arr xs) = .arr (cleanItems xs) := by
              simp [clean_config, hsk]
            rw [h0]
            simp [clean_config, hsk, hself]
          | some ks =>
            by_cases he : (cleanItems xs).isEmpty
            · have hnil : cleanItems xs = [] := List.isEmpty_iff.mp he
              have h0 : clean_config (some k) (.arr xs) = .arr [] := by
                simp [clean_config, hsk, hnil]
              rw [h0]
              simp [clean_config, cleanItems, hsk]
            · have h0 : clean_config (some k) (.arr xs)
                  = .arr (sort_array ks (cleanItems xs)) := by
                simp [clean_config, hsk, he]
              rw [h0]
              have hfix2 : ∀ x ∈ sort_array ks (cleanItems xs),
                  x ≠ JVal.null ∧ clean_config none x = x :=
                fun x hx => hfix x (sort_array_mem ks _ x hx)
              have hself2 : cleanItems (sort_array ks (cleanItems xs))
                  = sort_array ks (cleanItems xs) :=
                cleanItems_fixed_of _ hfix2
              have hne2 : (sort_array ks (cleanItems xs)).isEmpty = false := by
                cases hsa : sort_array ks (cleanItems xs) with
                | nil =>
                  exfalso
                  have hlen := sort_array_length ks (cleanItems xs)
                  rw [hsa] at hlen
                  exact he (List.isEmpty_iff.mpr (List.length_eq_zero.mp hlen.symm))
                | cons a as => rfl
              simp [clean_config, hsk, hself2, hne2, sort_array_idem]
      | obj fs =>
        have hsz : ∀ p ∈ fs, sizeOf p.2 ≤ n := by
          intro p hp
          have h1 := List.sizeOf_lt_of_mem hp
          have h2 : sizeOf p.2 < sizeOf p := by
            obtain ⟨a, b⟩ := p
            simp only [Prod.mk.sizeOf_spec]
            omega
          simp only [JVal.obj.sizeOf_spec] at hv
          omega
        have ihf : ∀ p ∈ fs, ∀ key2,
            clean_config key2 (clean_config key2 p.2) = clean_config key2 p.2 :=
          fun p hp key2 => ih p.2 (hsz p hp) key2
        have hcf : cleanFields (cleanFields fs) = cleanFields fs :=
          cleanFields_idem_of fs ihf
        by_cases hk : (match key with
          | some k => decide (k ∈ OBJECT_ARRAY_FIELDS)
          | none => false) = true
        · have h0 : clean_config key (.obj fs) = .arr [.obj (cleanFields fs)] := by
            simp [clean_config, hk]
          rw [h0]
          have h1 : cleanItems [JVal.obj (cleanFields fs)]
              = [JVal.obj (cleanFields fs)] := by
            simp [cleanItems, clean_none_obj, hcf]
          obtain ⟨k, rfl⟩ : ∃ k, key = some k := by
            cases key with
            | none => simp at hk
            | some k => exact ⟨k, rfl⟩
          cases hsk : lookupSortKeys SORT_REQUIREMENTS k with
          | none => simp [clean_config, h1, hsk]
          | some ks => simp [clean_config, h1, hsk, sort_array_singleton]
        · have h0 : clean_config key (.obj fs) = .obj (cleanFields fs) := by
            simp [clean_config, hk]
          rw [h0]
          simp [clean_config, hk, hcf]
  intro key v
  exact main (sizeOf v) v le_rfl key

theorem cleanFields_idem (fs : List (String × JVal)) :
    cleanFields (cleanFields fs) = cleanFields fs :=
  cleanFields_idem_of fs (fun p _ key => clean_config_idem key p.2)

theorem anyNonBlank_arr_iff (l : List JVal) :
    anyNonBlank (.arr l) = true
      ↔ ∃ s, JVal.str s ∈ l ∧ (pyStrip s).data.isEmpty = false := by
  unfold anyNonBlank iterStrs
  rw [List.any_eq_true]
  constructor
  · rintro ⟨s, hs, hnb⟩
    rw [List.mem_filterMap] at hs
    obtain ⟨x, hx, hxs⟩ := hs
    cases x <;> simp only [Option.some.injEq, reduceCtorEq] at hxs
    · rename_i s2
      subst hxs
      exact ⟨s2, hx, by simpa using hnb⟩
  · rintro ⟨s, hs, hnb⟩
    exact ⟨s, List.mem_filterMap.mpr ⟨.str s, hs, rfl⟩, by simpa using hnb⟩

theorem pyTruthy_arr (l : List JVal) : pyTruthy (.arr l) = !l.isEmpty := rfl

/-- A snippet entry kept by `_enforce_constraints` is still kept after
`_clean_config`: the sql field of a kept dict stays truthy and keeps a
non-blank string (a bare string is wrapped into a singleton list, a list
keeps its non-blank string elements). -/
theorem keepSnippet_clean (y : JVal) (h : keepSnippet y = true) :
    keepSnippet (clean_config none y) = true := by
  cases y with
  | null => rfl
  | bool b => rfl
  | num n => rfl
  | str s => rfl
  | arr xs => rfl
  | obj fs =>
    rw [clean_none_obj]
    simp only [keepSnippet] at h ⊢
    rw [lookup_cleanFields]
    cases hlk : lookupField fs "sql" with
    | none =>
      rw [hlk] at h
      simp [pyTruthy] at h
    | some w =>
      rw [hlk] at h
      simp only [Option.getD_some, Option.map_some'] at h ⊢
      cases w with
      | null => simp [pyTruthy] at h
      | bool b =>
        simp only [JVal.isArr, Bool.false_and, Bool.or_false] at h
        simp at h
      | num m =>
        simp only [JVal.isArr, Bool.false_and, Bool.or_false] at h
        simp at h
      | obj g =>
        simp only [JVal.isArr, Bool.false_and, Bool.or_false] at h
        simp at h
      | str s0 =>
        simp only [JVal.isArr, Bool.false_and, Bool.false_or,
          Bool.and_eq_true] at h
        have hs0 : (pyStrip s0).data.isEmpty = false := by
          rcases h with ⟨_, h2⟩
          simpa using h2
        have hmemsql : "sql" ∈ STRING_ARRAY_FIELDS := by decide
        have hcl : clean_config (some "sql") (.str s0) = .arr [.str s0] := by
          simp [clean_config, hmemsql]
        rw [hcl]
        simp only [Bool.and_eq_true, Bool.or_eq_true]
        refine ⟨by simp [pyTruthy], Or.inl ⟨rfl, ?_⟩⟩
        exact (anyNonBlank_arr_iff [.str s0]).mpr ⟨s0, by simp, hs0⟩
      | arr l0 =>
        simp only [JVal.isArr, Bool.true_and, Bool.and_eq_true,
          Bool.or_eq_true] at h
        obtain ⟨htr, hdis⟩ := h
        have hnb : ∃ s, JVal.str s ∈ l0 ∧ (pyStrip s).data.isEmpty = false := by
          rcases hdis with hl | hr
          · exact (anyNonBlank_arr_iff l0).mp hl
          · simp at hr
        obtain ⟨s0, hs0mem, hs0⟩ := hnb
        have hsortsql : lookupSortKeys SORT_REQUIREMENTS "sql" = none := by decide
        have hcl : clean_config (some "sql") (.arr l0) = .arr (cleanItems l0) := by
          simp [clean_config, hsortsql]
        rw [hcl]
        have hmem2 : JVal.str s0 ∈ cleanItems l0 := by
          have : clean_config none (.str s0) = .str s0 := rfl
          rw [← this]
          exact (mem_cleanItems_iff l0 _).mpr ⟨.str s0, hs0mem, by simp, rfl⟩
        simp only [Bool.and_eq_true, Bool.or_eq_true]
        refine ⟨?_, Or.inl ⟨rfl, (anyNonBlank_arr_iff _).mpr ⟨s0, hmem2, hs0⟩⟩⟩
        rw [pyTruthy_arr]
        cases hci : cleanItems l0 with
        | nil => rw [hci] at hmem2; simp at hmem2
        | cons a as => rfl

/-- The value sitting at a snippet key after one `snippetFieldPass`. -/
def snippetPassVal : Option JVal → JVal
  | none => .arr []
  | some (.arr items) => .arr (items.filter keepSnippet)
  | some v => v

theorem lookup_snippetFieldPass_self (s : List (String × JVal)) (k : String) :
    lookupField (snippetFieldPass s k) k = some (snippetPassVal (lookupField s k)) := by
  unfold snippetFieldPass snippetPassVal
  cases h : lookupField s k with
  | none => exact lookup_setField_self s k _
  | some v =>
    cases v with
    | arr items => exact lookup_setField_self s k _
    | null => exact h
    | bool b => exact h
    | num n => exact h
    | str s2 => exact h
    | obj g => exact h

theorem lookup_snippetFieldPass_other (s : List (String × JVal)) (k k' : String)
    (h : k' ≠ k) :
    lookupField (snippetFieldPass s k) k' = lookupField s k' := by
  unfold snippetFieldPass
  cases hl : lookupField s k with
  | none => exact lookup_setField_other s k k' _ h
  | some v =>
    cases v with
    | arr items => exact lookup_setField_other s k k' _ h
    | null => rfl
    | bool b => rfl
    | num n => rfl
    | str s2 => rfl
    | obj g => rfl

theorem foldl_pass_id (keys : List String) (sn : List (String × JVal))
    (h : ∀ k ∈ keys, snippetFieldPass sn k = sn) :
    keys.foldl snippetFieldPass sn = sn := by
  induction keys with
  | nil => rfl
  | cons k ks ih =>
    simp only [List.foldl_cons]
    rw [h k (by simp)]
    exact ih (fun k2 hk2 => h k2 (by simp [hk2]))

theorem cleanItems_keep (l : List JVal) (h : ∀ x ∈ l, keepSnippet x = true) :
    ∀ x ∈ cleanItems l, keepSnippet x = true := by
  intro x hx
  obtain ⟨y, hy, _, rfl⟩ := (mem_cleanItems_iff l x).mp hx
  exact keepSnippet_clean y (h y hy)

theorem cleanItems_length_le (l : List JVal) : (cleanItems l).length ≤ l.length := by
  induction l with
  | nil => simp [cleanItems]
  | cons z rest ih =>
    by_cases hz : z = JVal.null
    · rw [show cleanItems (z :: rest) = cleanItems rest from by simp [cleanItems, hz]]
      simp only [List.length_cons]
      omega
    · rw [show cleanItems (z :: rest) = clean_config none z :: cleanItems rest from by
        simp [cleanItems, hz]]
      simp only [List.length_cons]
      omega

theorem clean_obj_plain (k : String) (X : List (String × JVal))
    (h : ¬ k ∈ OBJECT_ARRAY_FIELDS) :
    clean_config (some k) (.obj X) = .obj (cleanFields X) := by
  simp [clean_config, h]

theorem truncate_short (instr : List (String × JVal)) :
    ∀ l, lookupField (truncate_text_instructions instr) "text_instructions"
      = some (.arr l) → l.length ≤ 1 := by
  intro l hl
  unfold truncate_text_instructions at hl
  cases hx : lookupField instr "text_instructions" with
  | none =>
    rw [hx] at hl
    simp only at hl
    rw [hx] at hl
    simp at hl
  | some v =>
    rw [hx] at hl
    cases v with
    | arr l0 =>
      simp only at hl
      by_cases hlen : l0.length > 1
      · rw [if_pos hlen] at hl
        rw [lookup_setField_self] at hl
        obtain h2 := Option.some.inj hl
        obtain h3 := (JVal.arr.injEq _ _).mp h2
        subst h3
        simp [List.length_take]
      · rw [if_neg hlen] at hl
        rw [hx] at hl
        obtain h2 := Option.some.inj hl
        obtain h3 := (JVal.arr.injEq _ _).mp h2
        subst h3
        omega
    | null => simp only at hl; rw [hx] at hl; simp at hl
    | bool b => simp only at hl; rw [hx] at hl; simp at hl
    | num n => simp only at hl; rw [hx] at hl; simp at hl
    | str s => simp only at hl; rw [hx] at hl; simp at hl
    | obj g => simp only at hl; rw [hx] at hl; simp at hl

theorem clean_ti_short (X : List (String × JVal))
    (h : ∀ l, lookupField X "text_instructions" = some (.arr l) → l.length ≤ 1) :
    ∀ l', lookupField (cleanFields X) "text_instructions" = some (.arr l') →
      l'.length ≤ 1 := by
  intro l' hl'
  rw [lookup_cleanFields] at hl'
  cases hx : lookupField X "text_instructions" with
  | none => rw [hx] at hl'; simp at hl'
  | some v =>
    rw [hx] at hl'
    simp only [Option.map_some', Option.some.injEq] at hl'
    cases v with
    | arr l =>
      have hlen := h l hx
      have hsort : lookupSortKeys SORT_REQUIREMENTS "text_instructions"
          = some ["id"] := by decide
      by_cases he : (cleanItems l).isEmpty
      · rw [show clean_config (some "text_instructions") (.arr l)
            = .arr (cleanItems l) from by simp [clean_config, hsort, he]] at hl'
        obtain h3 := (JVal.arr.injEq _ _).mp hl'
        subst h3
        have := cleanItems_length_le l
        omega
      · rw [show clean_config (some "text_instructions") (.arr l)
            = .arr (sort_array ["id"] (cleanItems l)) from by
          simp [clean_config, hsort, he]] at hl'
        obtain h3 := (JVal.arr.injEq _ _).mp hl'
        subst h3
        rw [sort_array_length]
        have := cleanItems_length_le l
        omega
    | obj g =>
      have hobj : "text_instructions" ∈ OBJECT_ARRAY_FIELDS := by decide
      rw [show clean_config (some "text_instructions") (.obj g)
          = .arr [.obj (cleanFields g)] from by simp [clean_config, hobj]] at hl'
      obtain h3 := (JVal.arr.injEq _ _).mp hl'
      subst h3
      simp
    | str s =>
      have hstr : ¬ "text_instructions" ∈ STRING_ARRAY_FIELDS := by decide
      rw [show clean_config (some "text_instructions") (.str s) = .str s from by
        simp [clean_config, hstr]] at hl'
      simp at hl'
    | null => simp [clean_config] at hl'
    | bool b => simp [clean_config] at hl'
    | num n => simp [clean_config] at hl'

theorem truncate_id (X : List (String × JVal))
    (h : ∀ l, lookupField X "text_instructions" = some (.arr l) → l.length ≤ 1) :
    truncate_text_instructions X = X := by
  unfold truncate_text_instructions
  cases hx : lookupField X "text_instructions" with
  | none => rfl
  | some v =>
    cases v with
    | arr l =>
      have := h l hx
      simp only
      rw [if_neg (by omega)]
    | null => rfl
    | bool b => rfl
    | num n => rfl
    | str s => rfl
    | obj g => rfl

/-- After cleaning, a snippet key whose post-pass value either is a list
of kept entries or is a non-list that cleaning turns into kept entries is
left unchanged by a second `snippetFieldPass`. -/
theorem pass_cleanFields_id (sn1 : List (String × JVal)) (k : String) (w : JVal)
    (hobj : k ∈ OBJECT_ARRAY_FIELDS)
    (hstr : ¬ k ∈ STRING_ARRAY_FIELDS)
    (hsort : lookupSortKeys SORT_REQUIREMENTS k = some ["id"])
    (hk1 : lookupField sn1 k = some w)
    (hwa : ∀ items, w = .arr items → ∀ x ∈ items, keepSnippet x = true)
    (hwo : w.isObj = true → keepSnippet w = true) :
    snippetFieldPass (cleanFields sn1) k = cleanFields sn1 := by
  have hlk : lookupField (cleanFields sn1) k = some (clean_config (some k) w) := by
    rw [lookup_cleanFields, hk1, Option.map_some']
  cases w with
  | arr items =>
    have hkeep : ∀ x ∈ items, keepSnippet x = true := hwa items rfl
    have hkeepc : ∀ x ∈ cleanItems items, keepSnippet x = true :=
      cleanItems_keep items hkeep
    by_cases he : (cleanItems items).isEmpty
    · have hcl : clean_config (some k) (.arr items) = .arr (cleanItems items) := by
        simp [clean_config, hsort, he]
      rw [hcl] at hlk
      unfold snippetFieldPass
      rw [hlk]
      simp only
      rw [List.filter_eq_self.mpr hkeepc]
      exact setField_lookup_eq_self _ _ _ hlk
    · have hcl : clean_config (some k) (.arr items)
          = .arr (sort_array ["id"] (cleanItems items)) := by
        simp [clean_config, hsort, he]
      rw [hcl] at hlk
      unfold snippetFieldPass
      rw [hlk]
      simp only
      have hkeeps : ∀ x ∈ sort_array ["id"] (cleanItems items), keepSnippet x = true :=
        fun x hx => hkeepc x (sort_array_mem _ _ x hx)
      rw [List.filter_eq_self.mpr hkeeps]
      exact setField_lookup_eq_self _ _ _ hlk
  | obj g =>
    have hkeep : keepSnippet (.obj g) = true := hwo rfl
    have hcl : clean_config (some k) (.obj g) = .arr [.obj (cleanFields g)] := by
      simp [clean_config, hobj]
    rw [hcl] at hlk
    unfold snippetFieldPass
    rw [hlk]
    simp only
    have hkeep2 : keepSnippet (JVal.obj (cleanFields g)) = true := by
      rw [← clean_none_obj]
      exact keepSnippet_clean _ hkeep
    rw [show List.filter keepSnippet [JVal.obj (cleanFields g)]
        = [JVal.obj (cleanFields g)] from by simp [hkeep2]]
    exact setField_lookup_eq_self _ _ _ hlk
  | str s =>
    have hcl : clean_config (some k) (.str s) = .str s := by
      simp [clean_config, hstr]
    rw [hcl] at hlk
    unfold snippetFieldPass
    rw [hlk]
  | null =>
    have hcl : clean_config (some k) JVal.null = JVal.null := rfl
    rw [hcl] at hlk
    unfold snippetFieldPass
    rw [hlk]
  | bool b =>
    have hcl : clean_config (some k) (.bool b) = .bool b := rfl
    rw [hcl] at hlk
    unfold snippetFieldPass
    rw [hlk]
  | num n =>
    have hcl : clean_config (some k) (.num n) = .num n := rfl
    rw [hcl] at hlk
    unfold snippetFieldPass
    rw [hlk]

theorem passVal_good (o : Option JVal)
    (h : ∀ v, o = some v → (!v.isObj || keepSnippet v) = true) :
    (∀ items, snippetPassVal o = .arr items → ∀ x ∈ items, keepSnippet x = true) ∧
    ((snippetPassVal o).isObj = true → keepSnippet (snippetPassVal o) = true) := by
  cases o with
  | none =>
    refine ⟨?_, ?_⟩
    · intro items he x hx
      rw [show snippetPassVal none = .arr [] from rfl] at he
      obtain h3 := (JVal.arr.injEq _ _).mp he
      subst h3
      simp at hx
    · intro hi
      rw [show snippetPassVal none = .arr [] from rfl] at hi
      simp [JVal.isObj] at hi
  | some v =>
    cases v with
    | arr items0 =>
      refine ⟨?_, ?_⟩
      · intro items he x hx
        rw [show snippetPassVal (some (.arr items0))
            = .arr (items0.filter keepSnippet) from rfl] at he
        obtain h3 := (JVal.arr.injEq _ _).mp he
        subst h3
        exact (List.mem_filter.mp hx).2
      · intro hi
        rw [show snippetPassVal (some (.arr items0))
            = .arr (items0.filter keepSnippet) from rfl] at hi
        simp [JVal.isObj] at hi
    | obj g =>
      refine ⟨?_, ?_⟩
      · intro items he
        rw [show snippetPassVal (some (.obj g)) = .obj g from rfl] at he
        simp at he
      · intro _
        have h2 := h (.obj g) rfl
        rw [show snippetPassVal (some (.obj g)) = .obj g from rfl]
        simpa [JVal.isObj] using h2
    | null =>
      exact ⟨fun items he => by simp [snippetPassVal] at he,
        fun hi => by simp [snippetPassVal, JVal.isObj] at hi⟩
    | bool b =>
      exact ⟨fun items he => by simp [snippetPassVal] at he,
        fun hi => by simp [snippetPassVal, JVal.isObj] at hi⟩
    | num n =>
      exact ⟨fun items he => by simp [snippetPassVal] at he,
        fun hi => by simp [snippetPassVal, JVal.isObj] at hi⟩
    | str s =>
      exact ⟨fun items he => by simp [snippetPassVal] at he,
        fun hi => by simp [snippetPassVal, JVal.isObj] at hi⟩

theorem truncate_lookup_other (instr : List (String × JVal)) (k : String)
    (h : k ≠ "text_instructions") :
    lookupField (truncate_text_instructions instr) k = lookupField instr k := by
  unfold truncate_text_instructions
  cases hx : lookupField instr "text_instructions" with
  | none => rfl
  | some v =>
    cases v with
    | arr l =>
      simp only
      split
      · exact lookup_setField_other instr _ k _ h
      · rfl
    | null => rfl
    | bool b => rfl
    | num n => rfl
    | str s => rfl
    | obj g => rfl

/-- The hypothesis under which normalization is idempotent: every value
present at a snippet key (filters, expressions, measures) under an
instructions.sql_snippets object either is not a bare mapping or is a
mapping whose sql field already makes `_enforce_constraints` keep it. -/
def snippetHypB (t : List (String × JVal)) : Bool :=
  match lookupField t "instructions" with
  | some (.obj instr) =>
    match lookupField instr "sql_snippets" with
    | some (.obj sn) =>
      (["filters", "expressions", "measures"]).all (fun k =>
        match lookupField sn k with
        | some v => !v.isObj || keepSnippet v
        | none => true)
    | _ => true
  | _ => true

theorem enforce_cleanFields_stable (t u0 : List (String × JVal))
    (ht : snippetHypB t = true)
    (henf : enforce_constraints t = .ok u0) :
    enforce_constraints (cleanFields u0) = .ok (cleanFields u0) := by
  unfold enforce_constraints at henf
  cases hins : lookupField t "instructions" with
  | none =>
    rw [hins] at henf
    simp only [Except.ok.injEq] at henf
    subst henf
    unfold enforce_constraints
    rw [lookup_cleanFields, hins]
    rfl
  | some vins =>
    rw [hins] at henf
    cases vins with
    | null => simp at henf
    | bool b => simp at henf
    | num n => simp at henf
    | str s => simp at henf
    | arr l => simp at henf
    | obj instr0 =>
      simp only at henf
      cases hsn : lookupField (truncate_text_instructions instr0) "sql_snippets" with
      | none =>
        rw [hsn] at henf
        simp only [Except.ok.injEq] at henf
        subst henf
        have hni : ¬ "instructions" ∈ OBJECT_ARRAY_FIELDS := by decide
        have h1 : lookupField
            (cleanFields (setField t "instructions"
              (.obj (truncate_text_instructions instr0)))) "instructions"
            = some (.obj (cleanFields (truncate_text_instructions instr0))) := by
          rw [lookup_cleanFields, lookup_setField_self, Option.map_some',
            clean_obj_plain _ _ hni]
        unfold enforce_constraints
        rw [h1]
        simp only
        rw [truncate_id _ (clean_ti_short _ (truncate_short instr0))]
        rw [lookup_cleanFields, hsn]
        simp only [Option.map_none']
        rw [setField_lookup_eq_self _ _ _ h1]
      | some vsn =>
        cases vsn with
        | null => rw [hsn] at henf; simp at henf
        | bool b => rw [hsn] at henf; simp at henf
        | num n => rw [hsn] at henf; simp at henf
        | str s => rw [hsn] at henf; simp at henf
        | arr l => rw [hsn] at henf; simp at henf
        | obj sn0 =>
          rw [hsn] at henf
          simp only [Except.ok.injEq] at henf
          subst henf
          have hni : ¬ "instructions" ∈ OBJECT_ARRAY_FIELDS := by decide
          have hns : ¬ "sql_snippets" ∈ OBJECT_ARRAY_FIELDS := by decide
          have hsn0 : lookupField instr0 "sql_snippets" = some (.obj sn0) := by
            rw [← truncate_lookup_other instr0 "sql_snippets" (by decide)]
            exact hsn
          have hyp : ∀ k ∈ (["filters", "expressions", "measures"] : List String),
              ∀ v, lookupField sn0 k = some v → (!v.isObj || keepSnippet v) = true := by
            unfold snippetHypB at ht
            rw [hins] at ht
            simp only at ht
            rw [hsn0] at ht
            simp only at ht
            rw [List.all_eq_true] at ht
            intro k hk v hv
            have h2 := ht k hk
            rw [hv] at h2
            simpa using h2
          have hX : ∀ l, lookupField (setField (truncate_text_instructions instr0)
              "sql_snippets" (.obj ((["filters", "expressions", "measures"]).foldl
                snippetFieldPass sn0))) "text_instructions" = some (.arr l) →
              l.length ≤ 1 := by
            intro l hl
            apply truncate_short instr0 l
            rwa [lookup_setField_other _ _ _ _ (by decide)] at hl
          have h1 : lookupField
              (cleanFields (setField t "instructions"
                (.obj (setField (truncate_text_instructions instr0) "sql_snippets"
                  (.obj ((["filters", "expressions", "measures"]).foldl
                    snippetFieldPass sn0)))))) "instructions"
              = some (.obj (cleanFields (setField (truncate_text_instructions instr0)
                  "sql_snippets" (.obj ((["filters", "expressions", "measures"]).foldl
                    snippetFieldPass sn0))))) := by
            rw [lookup_cleanFields, lookup_setField_self, Option.map_some',
              clean_obj_plain _ _ hni]
          unfold enforce_constraints
          rw [h1]
          simp only
          rw [truncate_id _ (clean_ti_short _ hX)]
          have h2 : lookupField (cleanFields (setField (truncate_text_instructions instr0)
              "sql_snippets" (.obj ((["filters", "expressions", "measures"]).foldl
                snippetFieldPass sn0)))) "sql_snippets"
              = some (.obj (cleanFields ((["filters", "expressions", "measures"]).foldl
                  snippetFieldPass sn0))) := by
            rw [lookup_cleanFields, lookup_setField_self, Option.map_some',
              clean_obj_plain _ _ hns]
          rw [h2]
          simp only
          have hlk3 : ∀ k ∈ (["filters", "expressions", "measures"] : List String),
              lookupField ((["filters", "expressions", "measures"]).foldl
                snippetFieldPass sn0) k = some (snippetPassVal (lookupField sn0 k)) := by
            intro k hk
            simp only [List.foldl_cons, List.foldl_nil]
            have hk3 : k = "filters" ∨ k = "expressions" ∨ k = "measures" := by
              simpa using hk
            rcases hk3 with rfl | rfl | rfl
            · rw [lookup_snippetFieldPass_other _ _ _ (by decide),
                lookup_snippetFieldPass_other _ _ _ (by decide),
                lookup_snippetFieldPass_self]
            · rw [lookup_snippetFieldPass_other _ _ _ (by decide),
                lookup_snippetFieldPass_self,
                lookup_snippetFieldPass_other _ _ _ (by decide)]
            · rw [lookup_snippetFieldPass_self,
                lookup_snippetFieldPass_other _ _ _ (by decide),
                lookup_snippetFieldPass_other _ _ _ (by decide)]
          have h3 : (["filters", "expressions", "measures"]).foldl snippetFieldPass
              (cleanFields ((["filters", "expressions", "measures"]).foldl
                snippetFieldPass sn0))
              = cleanFields ((["filters", "expressions", "measures"]).foldl
                  snippetFieldPass sn0) := by
            apply foldl_pass_id
            intro k hk
            have hgood := passVal_good (lookupField sn0 k) (hyp k hk)
            have hk3 : k = "filters" ∨ k = "expressions" ∨ k = "measures" := by
              simpa using hk
            refine pass_cleanFields_id _ k (snippetPassVal (lookupField sn0 k))
              ?_ ?_ ?_ (hlk3 k hk) hgood.1 hgood.2
            · rcases hk3 with rfl | rfl | rfl <;> decide
            · rcases hk3 with rfl | rfl | rfl <;> decide
            · rcases hk3 with rfl | rfl | rfl <;> decide
          rw [h3]
          rw [setField_lookup_eq_self _ _ _ h2]
          rw [setField_lookup_eq_self _ _ _ h1]

/-- Counterexample input for idempotence: a configuration whose
instructions.sql_snippets.filters value is a bare mapping with a blank
sql string. -/
def c5_t0 : List (String × JVal) :=
  [("instructions", .obj [("sql_snippets", .obj
    [("filters", .obj [("id", .str "f"), ("sql", .str "")])])])]

/-- First normalization pass on c5_t0: the bare filters mapping is not a
list, so `_enforce_constraints` leaves it alone (and adds the missing
expressions and measures keys as empty lists); `_clean_config` then wraps
it into a one-element array and wraps its sql string into a one-element
array. -/
def c5_v1 : List (String × JVal) :=
  [("instructions", .obj [("sql_snippets", .obj
    [("filters", .arr [.obj [("id", .str "f"), ("sql", .arr [.str ""])]]),
     ("expressions", .arr []), ("measures", .arr [])])])]

/-- Second normalization pass: filters is now a list, so
`_enforce_constraints` filters it, and the blank-sql snippet is removed. -/
def c5_v2 : List (String × JVal) :=
  [("instructions", .obj [("sql_snippets", .obj
    [("filters", .arr []),
     ("expressions", .arr []), ("measures", .arr [])])])]

/-- Claim C5, counterexample: normalization is NOT idempotent for every
configuration tree. On c5_t0 the first pass keeps the blank-sql snippet
(merely wrapping it into a one-element array, because a bare mapping at a
snippet key escapes the list-only removal loop of `_enforce_constraints`)
while the second pass removes it, so normalize(normalize(t)) differs from
normalize(t). -/
theorem C5_normalize_not_idempotent :
    normalize_config c5_t0 = .ok c5_v1 ∧
    (normalize_config c5_t0).bind normalize_config = .ok c5_v2 ∧
    (normalize_config c5_t0).bind normalize_config ≠ normalize_config c5_t0 := by
  refine ⟨by decide, by decide, by decide⟩

/-- Claim C5 (amended): normalization is idempotent on every configuration
tree in which each value present at a snippet key (filters, expressions,
measures) of an instructions.sql_snippets mapping either is not a bare
mapping or is a mapping that `_enforce_constraints` would keep (truthy sql
holding a non-blank string); in particular on every tree whose snippet
keys hold lists, which is every tree a prior normalization emitted from a
snippet list. -/
theorem C5_normalize_idempotent_amended (t : List (String × JVal))
    (ht : snippetHypB t = true) :
    (normalize_config t).bind normalize_config = normalize_config t := by
  unfold normalize_config
  cases henf : enforce_constraints t with
  | error e => rfl
  | ok u0 =>
    have hstable := enforce_cleanFields_stable t u0 ht henf
    show (enforce_constraints (cleanFields u0)).map cleanFields
        = Except.ok (cleanFields u0)
    rw [hstable]
    show Except.ok (cleanFields (cleanFields u0)) = Except.ok (cleanFields u0)
    rw [cleanFields_idem]

/-- Witness for C5: a concrete configuration with a snippet list (one
kept filter) and a kept bare expressions mapping satisfies the hypothesis,
and normalization is idempotent on it. -/
theorem C5_idempotent_witness :
    snippetHypB c5_v1 = true ∧
    (normalize_config c5_v1).bind normalize_config = normalize_config c5_v1 :=
  ⟨by decide, C5_normalize_idempotent_amended c5_v1 (by decide)⟩
